import Mathlib

/-!
Verification development for the redscript-io script bundle library.

The embedding models the library's byte-level codec over `List Nat`, where
each element stands for one byte (values are reduced modulo 256 wherever the
code treats them as `u8`). Machine integers (`u16`, `u32`, `u64`) are
modelled as `Nat` with explicit `% 2^w` at the points where the code casts
or can overflow, and `i16` as `Int` with explicit wrapping.
-/

namespace Redscript

/-- Strings in the model are raw byte sequences (the library's `Str` is a
byte-backed string type; only byte identity matters for the codec). -/
abbrev Str := List Nat

/-- Little-endian serialization of a `u32` (the value is truncated mod 2^32,
matching Rust `as u32` casts). -/
def u32le (n : Nat) : List Nat :=
  [n % 256, n / 256 % 256, n / 65536 % 256, n / 16777216 % 256]

/-- Little-endian serialization of a `u64`. -/
def u64le (n : Nat) : List Nat :=
  u32le (n % 4294967296) ++ u32le (n / 4294967296)

/-- Read a little-endian `u32` at `pos`; fails when fewer than 4 bytes
remain (the byte crate's `Incomplete` error). Each byte is reduced mod 256,
reflecting that the buffer holds `u8` values. -/
def readU32 (l : List Nat) (pos : Nat) : Option Nat :=
  match l.drop pos with
  | b0 :: b1 :: b2 :: b3 :: _ =>
      some (b0 % 256 + 256 * (b1 % 256) + 65536 * (b2 % 256) +
        16777216 * (b3 % 256))
  | _ => none

/-- Read a little-endian `u64` at `pos`. -/
def readU64 (l : List Nat) (pos : Nat) : Option Nat :=
  match readU32 l pos, readU32 l (pos + 4) with
  | some lo, some hi => some (lo + 4294967296 * hi)
  | _, _ => none

/-- Read `n` raw bytes at `pos`; fails when the buffer is too short. -/
def readBytes (l : List Nat) (pos n : Nat) : Option (List Nat) :=
  if pos + n ≤ l.length then some ((l.drop pos).take n) else none

/-- Read a zero-delimited string at `pos` (the byte crate's `Delimiter(0)`
context): the bytes before the first 0, failing when no delimiter occurs
before the end of the buffer. -/
def readCStr (l : List Nat) (pos : Nat) : Option (List Nat) :=
  let rest := l.drop pos
  if rest.any (fun b => b == 0) then some (rest.takeWhile (fun b => b != 0))
  else none

/-- The `n`-byte slice of a buffer starting at `off`. -/
def sliceAt (l : List Nat) (off n : Nat) : List Nat :=
  (l.drop off).take n

/-- One round of the CRC-32 shift (reflected polynomial 0xEDB88320),
as computed by `crc32fast::hash`. -/
def crcRound (c : Nat) : Nat :=
  if c % 2 = 1 then (c / 2) ^^^ 0xEDB88320 else c / 2

/-- Iterated CRC rounds. -/
def crcRounds : Nat → Nat → Nat
  | 0, c => c
  | n + 1, c => crcRounds n (crcRound c)

/-- CRC-32 of a byte sequence (IEEE, as `crc32fast::hash`): init 0xFFFFFFFF,
per byte xor-in then 8 shift rounds, final xor 0xFFFFFFFF. Bytes are reduced
mod 256. -/
def crc32 (bytes : List Nat) : Nat :=
  (bytes.foldl (fun c b => crcRounds 8 (c ^^^ b % 256)) 0xFFFFFFFF) ^^^
    0xFFFFFFFF

/-! ## Instruction model (src/instr.rs)

`Offset` is an `i16` newtype; arithmetic on it is modelled with explicit
16-bit two's-complement wrapping. -/

/-- Wrap an integer into the `i16` range, two's complement. -/
def wrap16 (n : Int) : Int := (n + 32768) % 65536 - 32768

/-- `Offset`: a signed 16-bit displacement (src/instr.rs). -/
structure Offset where
  value : Int
  deriving DecidableEq, Repr

/-- `Add<i16> for Offset`: `self.value + rhs` with `i16` wrapping. -/
def Offset.add (o : Offset) (rhs : Int) : Offset :=
  ⟨wrap16 (o.value + rhs)⟩

/-- `Sub<i16> for Offset`: `self.value - rhs` with `i16` wrapping. -/
def Offset.sub (o : Offset) (rhs : Int) : Offset :=
  ⟨wrap16 (o.value - rhs)⟩

/-- `Jump` operand (also used by `JumpIfFalse`, `Skip`, `Context`, and the
`exit` fields of `InvokeStatic`/`InvokeVirtual`). The stored field is the
biased offset. -/
structure Jump (Loc : Type) where
  target : Loc
  deriving DecidableEq, Repr

/-- `Jump::new`: stores `target - 3`. -/
def Jump.new (target : Offset) : Jump Offset :=
  ⟨target.sub 3⟩

/-- `Jump::target`: returns `self.target + 3`. -/
def Jump.getTarget (j : Jump Offset) : Offset :=
  j.target.add 3

/-- `Conditional` operand. -/
structure Conditional (Loc : Type) where
  false_label : Loc
  exit : Loc
  deriving DecidableEq, Repr

/-- `Conditional::new`: stores `(false_label - 3, exit - 5)`. -/
def Conditional.new (false_label exit : Offset) : Conditional Offset :=
  ⟨false_label.sub 3, exit.sub 5⟩

/-- `Conditional::false_label`: returns `self.false_label + 3`. -/
def Conditional.getFalseLabel (c : Conditional Offset) : Offset :=
  c.false_label.add 3

/-- `Conditional::exit`: returns `self.exit + 5`. -/
def Conditional.getExit (c : Conditional Offset) : Offset :=
  c.exit.add 5

/-- `Switch` operand; `expr_type` is a `TypeIndex` (a `u32`). -/
structure Switch (Loc : Type) where
  expr_type : Nat
  first_case : Loc
  deriving DecidableEq, Repr

/-- `Switch::new`: stores `first_case - 11`. -/
def Switch.new (expr_type : Nat) (first_case : Offset) : Switch Offset :=
  ⟨expr_type, first_case.sub 11⟩

/-- `Switch::first_case`: returns `self.first_case + 11`. -/
def Switch.getFirstCase (s : Switch Offset) : Offset :=
  s.first_case.add 11

/-- `SwitchLabel` operand. -/
structure SwitchLabel (Loc : Type) where
  next_case : Loc
  body : Loc
  deriving DecidableEq, Repr

/-- `SwitchLabel::new`: stores `(next_case - 3, body - 5)`. -/
def SwitchLabel.new (next_case body : Offset) : SwitchLabel Offset :=
  ⟨next_case.sub 3, body.sub 5⟩

/-- `SwitchLabel::next_case`: returns `self.next_case + 3`. -/
def SwitchLabel.getNextCase (s : SwitchLabel Offset) : Offset :=
  s.next_case.add 3

/-- `SwitchLabel::body`: returns `self.body + 5`. -/
def SwitchLabel.getBody (s : SwitchLabel Offset) : Offset :=
  s.body.add 5

/-- `Breakpoint` payload (19 operand bytes on the wire). -/
structure Breakpoint where
  line : Nat
  line_start : Nat
  col : Nat
  length : Nat
  enabled : Bool
  padding : List Nat
  deriving DecidableEq, Repr

/-- `Profile` payload: a length-prefixed byte vector plus a flag. -/
structure Profile where
  function : List Nat
  enabled : Bool
  deriving DecidableEq, Repr

/-- The instruction enumeration of src/instr.rs, in source order with the
same tags. Pool indices (`CNameIndex`, `TypeIndex`, ...) are `u32` wrappers
and are modelled as `Nat`; `i8`..`i64` are modelled as `Int`; `f32`/`f64`
payloads are modelled by their raw bit patterns as `Nat` (the codec never
interprets them numerically). -/
inductive Instr (Loc : Type) where
  | Nop                                                               -- 0x00
  | Null                                                              -- 0x01
  | I32One                                                            -- 0x02
  | I32Zero                                                           -- 0x03
  | I8Const (v : Int)                                                 -- 0x04
  | I16Const (v : Int)                                                -- 0x05
  | I32Const (v : Int)                                                -- 0x06
  | I64Const (v : Int)                                                -- 0x07
  | U8Const (v : Nat)                                                 -- 0x08
  | U16Const (v : Nat)                                                -- 0x09
  | U32Const (v : Nat)                                                -- 0x0A
  | U64Const (v : Nat)                                                -- 0x0B
  | F32Const (bits : Nat)                                             -- 0x0C
  | F64Const (bits : Nat)                                             -- 0x0D
  | CNameConst (v : Nat)                                              -- 0x0E
  | EnumConst (enum_ : Nat) (value : Nat)                             -- 0x0F
  | StringConst (v : Nat)                                             -- 0x10
  | TweakDbIdConst (v : Nat)                                          -- 0x11
  | ResourceConst (v : Nat)                                           -- 0x12
  | TrueConst                                                         -- 0x13
  | FalseConst                                                        -- 0x14
  | Breakpoint (bp : Redscript.Breakpoint)                            -- 0x15
  | Assign                                                            -- 0x16
  | Target (loc : Loc)                                                -- 0x17
  | Local (v : Nat)                                                   -- 0x18
  | Param (v : Nat)                                                   -- 0x19
  | ObjectField (v : Nat)                                             -- 0x1A
  | ExternalVar                                                       -- 0x1B
  | Switch (s : Redscript.Switch Loc)                                 -- 0x1C
  | SwitchLabel (s : Redscript.SwitchLabel Loc)                       -- 0x1D
  | SwitchDefault                                                     -- 0x1E
  | Jump (j : Redscript.Jump Loc)                                     -- 0x1F
  | JumpIfFalse (j : Redscript.Jump Loc)                              -- 0x20
  | Skip (j : Redscript.Jump Loc)                                     -- 0x21
  | Conditional (c : Redscript.Conditional Loc)                       -- 0x22
  | Construct (arg_count : Nat) (type_ : Nat)                         -- 0x23
  | InvokeStatic (exit : Redscript.Jump Loc) (line : Nat)
      (function : Nat) (flags : Nat)                                  -- 0x24
  | InvokeVirtual (exit : Redscript.Jump Loc) (line : Nat)
      (function : Nat) (flags : Nat)                                  -- 0x25
  | ParamEnd                                                          -- 0x26
  | Return                                                            -- 0x27
  | StructField (v : Nat)                                             -- 0x28
  | Context (j : Redscript.Jump Loc)                                  -- 0x29
  | Equals (t : Nat)                                                  -- 0x2A
  | RefStringEqualsString (t : Nat)                                   -- 0x2B
  | StringEqualsRefString (t : Nat)                                   -- 0x2C
  | NotEquals (t : Nat)                                               -- 0x2D
  | RefStringNotEqualsString (t : Nat)                                -- 0x2E
  | StringNotEqualsRefString (t : Nat)                                -- 0x2F
  | New (c : Nat)                                                     -- 0x30
  | Delete                                                            -- 0x31
  | This                                                              -- 0x32
  | Profile (p : Redscript.Profile)                                   -- 0x33
  | ArrayClear (t : Nat)                                              -- 0x34
  | ArraySize (t : Nat)                                               -- 0x35
  | ArrayResize (t : Nat)                                             -- 0x36
  | ArrayFindFirst (t : Nat)                                          -- 0x37
  | ArrayFindFirstFast (t : Nat)                                      -- 0x38
  | ArrayFindLast (t : Nat)                                           -- 0x39
  | ArrayFindLastFast (t : Nat)                                       -- 0x3A
  | ArrayContains (t : Nat)                                           -- 0x3B
  | ArrayContainsFast (t : Nat)                                       -- 0x3C
  | ArrayCount (t : Nat)                                              -- 0x3D
  | ArrayCountFast (t : Nat)                                          -- 0x3E
  | ArrayPush (t : Nat)                                               -- 0x3F
  | ArrayPop (t : Nat)                                                -- 0x40
  | ArrayInsert (t : Nat)                                             -- 0x41
  | ArrayRemove (t : Nat)                                             -- 0x42
  | ArrayRemoveFast (t : Nat)                                         -- 0x43
  | ArrayGrow (t : Nat)                                               -- 0x44
  | ArrayErase (t : Nat)                                              -- 0x45
  | ArrayEraseFast (t : Nat)                                          -- 0x46
  | ArrayLast (t : Nat)                                               -- 0x47
  | ArrayElement (t : Nat)                                            -- 0x48
  | ArraySort (t : Nat)                                               -- 0x49
  | ArraySortByPredicate (t : Nat)                                    -- 0x4A
  | StaticArraySize (t : Nat)                                         -- 0x4B
  | StaticArrayFindFirst (t : Nat)                                    -- 0x4C
  | StaticArrayFindFirstFast (t : Nat)                                -- 0x4D
  | StaticArrayFindLast (t : Nat)                                     -- 0x4E
  | StaticArrayFindLastFast (t : Nat)                                 -- 0x4F
  | StaticArrayContains (t : Nat)                                     -- 0x50
  | StaticArrayContainsFast (t : Nat)                                 -- 0x51
  | StaticArrayCount (t : Nat)                                        -- 0x52
  | StaticArrayCountFast (t : Nat)                                    -- 0x53
  | StaticArrayLast (t : Nat)                                         -- 0x54
  | StaticArrayElement (t : Nat)                                      -- 0x55
  | RefToBool                                                         -- 0x56
  | WeakRefToBool                                                     -- 0x57
  | EnumToI32 (enum_type : Nat) (size : Nat)                          -- 0x58
  | I32ToEnum (enum_type : Nat) (size : Nat)                          -- 0x59
  | DynamicCast (class_ : Nat) (flags : Nat)                          -- 0x5A
  | ToString (t : Nat)                                                -- 0x5B
  | ToVariant (t : Nat)                                               -- 0x5C
  | FromVariant (t : Nat)                                             -- 0x5D
  | VariantIsDefined                                                  -- 0x5E
  | VariantIsRef                                                      -- 0x5F
  | VariantIsArray                                                    -- 0x60
  | VariantTypeName                                                   -- 0x61
  | VariantToString                                                   -- 0x62
  | WeakRefToRef                                                      -- 0x63
  | RefToWeakRef                                                      -- 0x64
  | WeakRefNull                                                       -- 0x65
  | AsRef (t : Nat)                                                   -- 0x66
  | Deref (t : Nat)                                                   -- 0x67

/-- `Instr::size` (src/instr.rs): `1 + op_size` where `op_size` is the
per-opcode operand size, computed in `u16`. The `Profile` arm computes
`5 + function.len() as u16` (`u16` truncation made explicit), and the
synthetic `Target` arm returns 0 before the `1 +` is applied. -/
def Instr.size {Loc : Type} (i : Instr Loc) : Nat :=
  match i with
  | .Target _ => 0
  | .Breakpoint _ => 1 + 19
  | .EnumConst _ _ => 1 + 16
  | .InvokeStatic _ _ _ _ | .InvokeVirtual _ _ _ _ => 1 + 14
  | .Switch _ => 1 + 10
  | .Construct _ _ | .EnumToI32 _ _ | .I32ToEnum _ _ | .DynamicCast _ _ =>
      1 + 9
  | .I64Const _ | .U64Const _ | .F64Const _ | .CNameConst _
  | .TweakDbIdConst _ | .ResourceConst _ | .Local _ | .Param _
  | .ObjectField _ | .StructField _ | .Equals _
  | .RefStringEqualsString _ | .StringEqualsRefString _ | .NotEquals _
  | .RefStringNotEqualsString _ | .StringNotEqualsRefString _ | .New _
  | .ToString _ | .ToVariant _ | .FromVariant _ | .AsRef _ | .Deref _
  | .ArrayClear _ | .ArraySize _ | .ArrayResize _ | .ArrayFindFirst _
  | .ArrayFindFirstFast _ | .ArrayFindLast _ | .ArrayFindLastFast _
  | .ArrayContains _ | .ArrayContainsFast _ | .ArrayCount _
  | .ArrayCountFast _ | .ArrayPush _ | .ArrayPop _ | .ArrayInsert _
  | .ArrayRemove _ | .ArrayRemoveFast _ | .ArrayGrow _ | .ArrayErase _
  | .ArrayEraseFast _ | .ArrayLast _ | .ArrayElement _ | .ArraySort _
  | .ArraySortByPredicate _ | .StaticArraySize _ | .StaticArrayFindFirst _
  | .StaticArrayFindFirstFast _ | .StaticArrayFindLast _
  | .StaticArrayFindLastFast _ | .StaticArrayContains _
  | .StaticArrayContainsFast _ | .StaticArrayCount _
  | .StaticArrayCountFast _ | .StaticArrayLast _ | .StaticArrayElement _ =>
      1 + 8
  | .I32Const _ | .U32Const _ | .F32Const _ | .StringConst _
  | .SwitchLabel _ | .Conditional _ => 1 + 4
  | .I16Const _ | .U16Const _ | .Jump _ | .JumpIfFalse _ | .Skip _
  | .Context _ => 1 + 2
  | .I8Const _ | .U8Const _ => 1 + 1
  | .Nop | .Null | .I32One | .I32Zero | .TrueConst | .FalseConst | .Assign
  | .ExternalVar | .SwitchDefault | .ParamEnd | .Return | .Delete | .This
  | .RefToBool | .WeakRefToBool | .VariantIsDefined | .VariantIsRef
  | .VariantIsArray | .VariantTypeName | .VariantToString | .WeakRefToRef
  | .RefToWeakRef | .WeakRefNull => 1 + 0
  | .Profile p => (1 + (5 + p.function.length % 65536) % 65536) % 65536

/-- The per-opcode operand size from the table of spec §4.3 (operand bytes
only). This is the spec-side definition used to compare against
`Instr.size`. -/
def specOperandSize {Loc : Type} (i : Instr Loc) : Nat :=
  match i with
  | .Nop | .Null | .I32One | .I32Zero => 0
  | .I8Const _ => 1
  | .I16Const _ => 2
  | .I32Const _ => 4
  | .I64Const _ => 8
  | .U8Const _ => 1
  | .U16Const _ => 2
  | .U32Const _ => 4
  | .U64Const _ => 8
  | .F32Const _ => 4
  | .F64Const _ => 8
  | .CNameConst _ => 8
  | .EnumConst _ _ => 16
  | .StringConst _ => 4
  | .TweakDbIdConst _ => 8
  | .ResourceConst _ => 8
  | .TrueConst | .FalseConst => 0
  | .Breakpoint _ => 19
  | .Assign => 0
  | .Target _ => 0
  | .Local _ => 8
  | .Param _ => 8
  | .ObjectField _ => 8
  | .ExternalVar => 0
  | .Switch _ => 10
  | .SwitchLabel _ => 4
  | .SwitchDefault => 0
  | .Jump _ | .JumpIfFalse _ | .Skip _ => 2
  | .Conditional _ => 4
  | .Construct _ _ => 9
  | .InvokeStatic _ _ _ _ | .InvokeVirtual _ _ _ _ => 14
  | .ParamEnd | .Return => 0
  | .StructField _ => 8
  | .Context _ => 2
  | .Equals _ | .RefStringEqualsString _ | .StringEqualsRefString _
  | .NotEquals _ | .RefStringNotEqualsString _
  | .StringNotEqualsRefString _ => 8
  | .New _ => 8
  | .Delete | .This => 0
  | .Profile p => 5 + p.function.length
  | .ArrayClear _ | .ArraySize _ | .ArrayResize _ | .ArrayFindFirst _
  | .ArrayFindFirstFast _ | .ArrayFindLast _ | .ArrayFindLastFast _
  | .ArrayContains _ | .ArrayContainsFast _ | .ArrayCount _
  | .ArrayCountFast _ | .ArrayPush _ | .ArrayPop _ | .ArrayInsert _
  | .ArrayRemove _ | .ArrayRemoveFast _ | .ArrayGrow _ | .ArrayErase _
  | .ArrayEraseFast _ | .ArrayLast _ | .ArrayElement _ | .ArraySort _
  | .ArraySortByPredicate _ => 8
  | .StaticArraySize _ | .StaticArrayFindFirst _
  | .StaticArrayFindFirstFast _ | .StaticArrayFindLast _
  | .StaticArrayFindLastFast _ | .StaticArrayContains _
  | .StaticArrayContainsFast _ | .StaticArrayCount _
  | .StaticArrayCountFast _ | .StaticArrayLast _
  | .StaticArrayElement _ => 8
  | .RefToBool | .WeakRefToBool => 0
  | .EnumToI32 _ _ | .I32ToEnum _ _ => 9
  | .DynamicCast _ _ => 9
  | .ToString _ | .ToVariant _ | .FromVariant _ => 8
  | .VariantIsDefined | .VariantIsRef | .VariantIsArray
  | .VariantTypeName | .VariantToString => 0
  | .WeakRefToRef | .RefToWeakRef | .WeakRefNull => 0
  | .AsRef _ | .Deref _ => 8

/-- Total encoded size per spec §4.3: `1 + operand size`, except the
synthetic `Target` opcode which occupies zero bytes. -/
def specSize {Loc : Type} (i : Instr Loc) : Nat :=
  match i with
  | .Target _ => 0
  | _ => 1 + specOperandSize i

/-- Side condition for `Instr.size`: the `Profile` arm computes its length
in `u16`, so the comparison with the spec table needs the encoded size to
fit; every other opcode is unconstrained. -/
def profileFits {Loc : Type} (i : Instr Loc) : Prop :=
  match i with
  | .Profile p => 6 + p.function.length < 65536
  | _ => True

/-! ## Definition model

Modelled from the spec: `src/definition.rs` is not under `src/` (only its
callers in `bundle.rs` are), so the definition codec is modelled from the
spec's words. Per §3, a definition is a tagged record whose variants are
Type, Class, EnumMember, Enum, Function, Parameter, Local, Field,
SourceFile, plus the Undefined sentinel; its per-variant field layout is
unspecified, so a variant's fields are modelled as its raw payload bytes
together with the name and parent indices carried in the 20-byte
definition header (name index, parent index, payload size, payload offset,
kind discriminator, in that order, each a `u32`). -/

/-- The definition kind discriminators (spec §3); numeric codes are
assigned in the spec's listing order, after the Undefined sentinel. -/
inductive DefKind where
  | Type'
  | Class
  | EnumMember
  | Enum
  | Function
  | Parameter
  | Local
  | Field
  | SourceFile
  deriving DecidableEq, Repr

/-- Numeric code of a kind (Undefined is 0, handled in `Defn`). -/
def DefKind.toNat : DefKind → Nat
  | .Type' => 1
  | .Class => 2
  | .EnumMember => 3
  | .Enum => 4
  | .Function => 5
  | .Parameter => 6
  | .Local => 7
  | .Field => 8
  | .SourceFile => 9

/-- Decode a kind discriminator; codes outside 1..9 are malformed. -/
def defKindOfNat : Nat → Option DefKind
  | 1 => some .Type'
  | 2 => some .Class
  | 3 => some .EnumMember
  | 4 => some .Enum
  | 5 => some .Function
  | 6 => some .Parameter
  | 7 => some .Local
  | 8 => some .Field
  | 9 => some .SourceFile
  | _ => none

/-- A definition: the Undefined sentinel, or a record of one of the nine
variants with its name index, parent index, and payload bytes. -/
inductive Defn where
  | undefined
  | record (kind : DefKind) (name parent : Nat) (payload : List Nat)
  deriving DecidableEq, Repr

/-- Name index stored in a definition's header. -/
def Defn.nameOf : Defn → Nat
  | .undefined => 0
  | .record _ n _ _ => n

/-- Parent index stored in a definition's header. -/
def Defn.parentOf : Defn → Nat
  | .undefined => 0
  | .record _ _ p _ => p

/-- Kind discriminator stored in a definition's header. -/
def Defn.kindNat : Defn → Nat
  | .undefined => 0
  | .record k _ _ _ => k.toNat

/-- Payload bytes written for a definition. -/
def Defn.payloadOf : Defn → List Nat
  | .undefined => []
  | .record _ _ _ pl => pl

/-- The 20-byte definition header record (spec §3): name index, parent
index, payload size, payload offset, kind. -/
structure DefHeader where
  name : Nat
  parent : Nat
  size : Nat
  offset : Nat
  kind : Nat
  deriving DecidableEq, Repr

/-- Serialize a definition header (five little-endian `u32`s, 20 bytes). -/
def serializeDefHeader (h : DefHeader) : List Nat :=
  u32le h.name ++ u32le h.parent ++ u32le h.size ++ u32le h.offset ++
    u32le h.kind

/-- Parse a definition header at `pos`. -/
def parseDefHeader (l : List Nat) (pos : Nat) : Option DefHeader := do
  let name ← readU32 l pos
  let parent ← readU32 l (pos + 4)
  let size ← readU32 l (pos + 8)
  let offset ← readU32 l (pos + 12)
  let kind ← readU32 l (pos + 16)
  pure ⟨name, parent, size, offset, kind⟩

/-- `DefinitionHeader::default()`: the all-zero record written at index 0. -/
def defaultDefHeader : DefHeader := ⟨0, 0, 0, 0, 0⟩

/-- `DefinitionHeader::from_defintion`: header for a definition with the
given payload size and offset. -/
def defHeaderFor (d : Defn) (size pos : Nat) : DefHeader :=
  ⟨d.nameOf, d.parentOf, size, pos, d.kindNat⟩

/-- Decode a definition from the file given its header: the payload bytes
at `offset`..`offset+size`, with the kind, name and parent from the
header. -/
def decodeDefn (l : List Nat) (h : DefHeader) : Option Defn := do
  let k ← defKindOfNat h.kind
  let pl ← readBytes l h.offset h.size
  pure (.record k h.name h.parent pl)

/-! ## String pools (src/bundle.rs, `StringPool`) -/

/-- Index of the first occurrence of `s`, if present (the `IndexSet`
lookup). -/
def idxOf (p : List Str) (s : Str) : Option Nat :=
  match p with
  | [] => none
  | t :: r => if t = s then some 0 else (idxOf r s).map (· + 1)

/-- `StringPool::add`: `insert_full` returns the existing index when the
string is interned already, else appends and returns the new index; the
index is then truncated to `u32` by `PoolIndex::new(index as _)`. Returns
the updated pool and the index. -/
def poolAdd (p : List Str) (s : Str) : List Str × Nat :=
  match idxOf p s with
  | some i => (p, i % 4294967296)
  | none => (p ++ [s], p.length % 4294967296)

/-- `StringPool::get_index`. -/
def poolGetIndex (p : List Str) (s : Str) : Option Nat :=
  (idxOf p s).map (· % 4294967296)

/-- Inserting into an `IndexSet` keeps the first occurrence and ignores
duplicates. -/
def poolInsert (p : List Str) (s : Str) : List Str :=
  if s ∈ p then p else p ++ [s]

/-- `FromIterator`/`Extend` for a string pool: fold the items into an
initially empty `IndexSet`. -/
def poolOfList (l : List Str) : List Str :=
  l.foldl poolInsert []

/-! ## Container header (src/bundle.rs, `Header`/`TableHeader`) -/

/-- A 12-byte table descriptor: offset, count, CRC-32 of the table bytes. -/
structure TableHeader where
  offset : Nat
  count : Nat
  hash : Nat
  deriving DecidableEq, Repr

/-- `TableHeader::new`: records the position and count and hashes the
just-written table bytes. -/
def TableHeader.new (offset count : Nat) (bytes : List Nat) : TableHeader :=
  ⟨offset, count, crc32 bytes⟩

/-- Serialize a table descriptor (three little-endian `u32`s). -/
def serializeTableHeader (t : TableHeader) : List Nat :=
  u32le t.offset ++ u32le t.count ++ u32le t.hash

/-- Parse a table descriptor at `pos`. -/
def parseTableHeader (l : List Nat) (pos : Nat) : Option TableHeader := do
  let offset ← readU32 l pos
  let count ← readU32 l (pos + 4)
  let hash ← readU32 l (pos + 8)
  pure ⟨offset, count, hash⟩

/-- The 104-byte file header. -/
structure Header where
  magic : List Nat
  version : Nat
  flags : Nat
  timestamp : Nat
  build : Nat
  crc : Nat
  segments : Nat
  string_data : TableHeader
  cnames : TableHeader
  tweakdb_ids : TableHeader
  resources : TableHeader
  definitions : TableHeader
  strings : TableHeader
  deriving DecidableEq, Repr

/-- `Header::MAGIC`, the bytes of `REDS`. -/
def magicREDS : List Nat := [82, 69, 68, 83]

/-- `Header::SUPPORTED_VERSION`. -/
def supportedVersion : Nat := 14

/-- Serialize the header: magic, version, flags, 64-bit timestamp, build,
crc, segments, then the six table descriptors. -/
def serializeHeader (h : Header) : List Nat :=
  h.magic.map (· % 256) ++ u32le h.version ++ u32le h.flags ++
    u64le h.timestamp ++ u32le h.build ++ u32le h.crc ++
    u32le h.segments ++ serializeTableHeader h.string_data ++
    serializeTableHeader h.cnames ++ serializeTableHeader h.tweakdb_ids ++
    serializeTableHeader h.resources ++
    serializeTableHeader h.definitions ++ serializeTableHeader h.strings

/-- Parse the header at offset 0. -/
def parseHeader (l : List Nat) : Option Header := do
  let magic ← readBytes l 0 4
  let version ← readU32 l 4
  let flags ← readU32 l 8
  let timestamp ← readU64 l 12
  let build ← readU32 l 20
  let crc ← readU32 l 24
  let segments ← readU32 l 28
  let string_data ← parseTableHeader l 32
  let cnames ← parseTableHeader l 44
  let tweakdb_ids ← parseTableHeader l 56
  let resources ← parseTableHeader l 68
  let definitions ← parseTableHeader l 80
  let strings ← parseTableHeader l 92
  pure ⟨magic.map (· % 256), version, flags, timestamp, build, crc,
    segments, string_data, cnames, tweakdb_ids, resources, definitions,
    strings⟩

/-! ## Reader (src/bundle.rs, `BundleReader` / `ScriptBundle`) -/

/-- The byte crate's error taxonomy. -/
inductive ByteErr where
  | badInput (msg : String)
  | incomplete
  | badOffset (offset : Nat)
  deriving DecidableEq, Repr

/-- Diagnostic message for a magic mismatch. -/
def invalidMagicMsg : String := "invalid magic number"

/-- Diagnostic message for a version mismatch. -/
def unsupportedVersionMsg : String := "unsupported version"

/-- `BundleReader::new`: parse the header, reject bad magic, reject any
version other than 14, otherwise return the parsed header (the reader
retains the input bytes alongside it). -/
def bundleReaderNew (bytes : List Nat) : Except ByteErr Header :=
  match parseHeader bytes with
  | none => .error .incomplete
  | some h =>
    if h.magic ≠ magicREDS then .error (.badInput invalidMagicMsg)
    else if h.version ≠ supportedVersion then
      .error (.badInput unsupportedVersionMsg)
    else .ok h

/-- Collapse a list of fallible reads, failing on the first error (a bad
record aborts the `collect`). -/
def optList {α : Type} : List (Option α) → Option (List α)
  | [] => some []
  | none :: _ => none
  | some a :: rest => (optList rest).map (a :: ·)

/-- Read one string-table item: the `u32` at `tblOff + 4*i` is an offset
into the string blob, and the string is read zero-delimited at
`sdOff + offset`. -/
def readStringItem (bytes : List Nat) (sdOff tblOff i : Nat) :
    Option Str := do
  let off ← readU32 bytes (tblOff + 4 * i)
  readCStr bytes (sdOff + off)

/-- Read a whole string table. -/
def readStrTable (bytes : List Nat) (sdOff : Nat) (tbl : TableHeader) :
    Option (List Str) :=
  optList ((List.range tbl.count).map
    (fun i => readStringItem bytes sdOff tbl.offset i))

/-- Read one definition-table item: parse the 20-byte header at
`tblOff + 20*i`, then decode the definition at the header's offset. -/
def readDefItem (bytes : List Nat) (tblOff i : Nat) : Option Defn := do
  let h ← parseDefHeader bytes (tblOff + 20 * i)
  decodeDefn bytes h

/-- Read the definition table, skipping index 0 (`skip(1)` discards the
first record unread into the result). -/
def readDefsTable (bytes : List Nat) (tbl : TableHeader) :
    Option (List Defn) :=
  optList (((List.range tbl.count).drop 1).map
    (fun i => readDefItem bytes tbl.offset i))

/-- The in-memory bundle: four string pools and the definition vector. -/
structure ScriptBundle where
  cnames : List Str
  tdb_ids : List Str
  resources : List Str
  strings : List Str
  definitions : List Defn
  deriving DecidableEq, Repr

/-- `ScriptBundle::from_reader`: materialize the four pools (collected
into `IndexSet`s) and the definitions, prepending the Undefined sentinel
at index 0 regardless of the record on disk. -/
def fromReader (bytes : List Nat) (h : Header) : Option ScriptBundle := do
  let cn ← readStrTable bytes h.string_data.offset h.cnames
  let tdb ← readStrTable bytes h.string_data.offset h.tweakdb_ids
  let res ← readStrTable bytes h.string_data.offset h.resources
  let strs ← readStrTable bytes h.string_data.offset h.strings
  let defs ← readDefsTable bytes h.definitions
  pure ⟨poolOfList cn, poolOfList tdb, poolOfList res, poolOfList strs,
    .undefined :: defs⟩

/-- `ScriptBundle::from_bytes`. -/
def fromBytes (bytes : List Nat) : Option ScriptBundle :=
  match bundleReaderNew bytes with
  | .ok h => fromReader bytes h
  | .error _ => none

/-- `ScriptBundle::default()`: empty pools and the Undefined sentinel. -/
def defaultBundle : ScriptBundle := ⟨[], [], [], [], [.undefined]⟩

/-- `ScriptBundle::define`: append the definition and return its index,
`definitions.len() as u32` (truncated by the cast); the `NzPoolIndex`
constructor asserts the index is non-zero. -/
def ScriptBundle.define (b : ScriptBundle) (d : Defn) :
    ScriptBundle × Nat :=
  ({ b with definitions := b.definitions ++ [d] },
    b.definitions.length % 4294967296)

/-- `ScriptBundle::into_owned`: promotes each string and definition to an
owned value; ownership is not observable in the model, so each promotion
is value-preserving. -/
def ScriptBundle.intoOwned (b : ScriptBundle) : ScriptBundle :=
  ⟨b.cnames.map (fun s => s), b.tdb_ids.map (fun s => s),
    b.resources.map (fun s => s), b.strings.map (fun s => s),
    b.definitions.map (fun d => d)⟩

/-! ## Writer (src/bundle.rs, `StringData` / `WriteableBundle`) -/

/-- The write-time global string dedup structure: an insertion-ordered map
from each unique string to its byte offset in the blob, plus the running
blob length. -/
structure StringData where
  entries : List (Str × Nat)
  length : Nat
  deriving DecidableEq, Repr

/-- The key sequence of the dedup map. -/
def StringData.keys (sd : StringData) : List Str :=
  sd.entries.map Prod.fst

/-- One step of `Extend for StringData`: a vacant key is inserted with the
current blob length as its offset, and the length grows by `len + 1` (the
zero terminator); an occupied key is left untouched. -/
def StringData.insert (sd : StringData) (s : Str) : StringData :=
  if s ∈ sd.keys then sd
  else ⟨sd.entries ++ [(s, sd.length)], sd.length + s.length + 1⟩

/-- `StringData::extend` over a list of strings. -/
def StringData.extendWith (sd : StringData) (l : List Str) : StringData :=
  l.foldl StringData.insert sd

/-- Offset lookup in the dedup map. -/
def StringData.lookup (sd : StringData) (s : Str) : Option Nat :=
  (sd.entries.find? (fun e => decide (e.1 = s))).map Prod.snd

/-- `ScriptBundle::into_writeable`: the dedup structure built from the
four pools' strings in pool order (cnames, tweakdb ids, resources,
strings). -/
def stringDataOf (b : ScriptBundle) : StringData :=
  StringData.extendWith ⟨[], 0⟩
    (b.cnames ++ b.tdb_ids ++ b.resources ++ b.strings)

/-- The string blob: each unique string in map order, zero-terminated. -/
def sdBlob (sd : StringData) : List Nat :=
  (sd.keys.map (fun s => s ++ [0])).flatten

/-- `StringPool::write`: the pool's index table, one `u32` per string
holding its global blob offset (the lookup cannot fail for strings that
were fed into the dedup map; `getD 0` stands for the `expect`). -/
def poolTableBytes (sd : StringData) (pool : List Str) : List Nat :=
  (pool.map (fun s => u32le ((sd.lookup s).getD 0))).flatten

/-- `Timestamp::new()`: a bitfield constructed with every field zero. -/
def timestampNew : Nat := 0

/-- Definition payloads written contiguously from `pos`, with the
back-patched header (payload size and offset) for each; returns the
payload bytes and the header records in order. -/
def writePayloads : List Defn → Nat → List Nat × List DefHeader
  | [], _ => ([], [])
  | d :: rest, pos =>
    let pl := d.payloadOf
    let (bs, hs) := writePayloads rest (pos + pl.length)
    (pl ++ bs, defHeaderFor d pl.length pos :: hs)

/-! `WriteableBundle::try_write` over a pre-sized buffer, modelled as the
concatenation of the segments it writes, one named definition per
segment. This mirrors the source's offset bookkeeping: the header region
is skipped (104 bytes), the blob and the three short index tables are
written, the definition-header table region (20 bytes per definition) is
reserved, the strings table is written, the payloads are written
contiguously while their headers are back-patched into the reserved
region (index 0 gets the all-zero default record), and finally the header
— with its CRC computed over its own serialization with the crc field set
to 0xDEADBEEF — is written at offset 0. -/

/-- The string blob segment. -/
def blobOf (b : ScriptBundle) : List Nat := sdBlob (stringDataOf b)

/-- The CName index table segment. -/
def cnBOf (b : ScriptBundle) : List Nat :=
  poolTableBytes (stringDataOf b) b.cnames

/-- The TweakDB index table segment. -/
def tdbBOf (b : ScriptBundle) : List Nat :=
  poolTableBytes (stringDataOf b) b.tdb_ids

/-- The resource index table segment. -/
def resBOf (b : ScriptBundle) : List Nat :=
  poolTableBytes (stringDataOf b) b.resources

/-- The string index table segment. -/
def strBOf (b : ScriptBundle) : List Nat :=
  poolTableBytes (stringDataOf b) b.strings

/-- Start of the reserved definition-header table: after the header, the
blob, and the three short index tables (the writer's running offset). -/
def headersStartOf (b : ScriptBundle) : Nat :=
  104 + (blobOf b).length + (cnBOf b).length + (tdbBOf b).length +
    (resBOf b).length

/-- Start of the string index table: after the reserved definition-header
region. -/
def strStartOf (b : ScriptBundle) : Nat :=
  headersStartOf b + 20 * b.definitions.length

/-- Start of the definition payloads. -/
def payStartOf (b : ScriptBundle) : Nat :=
  strStartOf b + (strBOf b).length

/-- The definition payload segment. -/
def payBOf (b : ScriptBundle) : List Nat :=
  (writePayloads b.definitions.tail (payStartOf b)).1

/-- The back-patched definition headers for definitions 1.. (index 0 gets
the default record). -/
def tailHdrsOf (b : ScriptBundle) : List DefHeader :=
  (writePayloads b.definitions.tail (payStartOf b)).2

/-- The definition-header table segment. -/
def defHdrBOf (b : ScriptBundle) : List Nat :=
  serializeDefHeader defaultDefHeader ++
    ((tailHdrsOf b).map serializeDefHeader).flatten

/-- The header serialized for hashing: all fields as finally written but
with the crc field set to the 0xDEADBEEF sentinel. -/
def writtenHeaderForHash (b : ScriptBundle) : Header :=
  ⟨magicREDS, supportedVersion, 0, timestampNew, 0, 0xDEADBEEF, 7,
    TableHeader.new 104 (stringDataOf b).length (blobOf b),
    TableHeader.new (104 + (blobOf b).length) b.cnames.length (cnBOf b),
    TableHeader.new (104 + (blobOf b).length + (cnBOf b).length)
      b.tdb_ids.length (tdbBOf b),
    TableHeader.new
      (104 + (blobOf b).length + (cnBOf b).length + (tdbBOf b).length)
      b.resources.length (resBOf b),
    TableHeader.new (headersStartOf b) b.definitions.length (defHdrBOf b),
    TableHeader.new (strStartOf b) b.strings.length (strBOf b)⟩

/-- The final header: the hash header with the real CRC patched in. -/
def writtenHeader (b : ScriptBundle) : Header :=
  { writtenHeaderForHash b with
    crc := crc32 (serializeHeader (writtenHeaderForHash b)) }

/-- `into_writeable().to_bytes()`: the serialized bundle. -/
def tryWriteBytes (b : ScriptBundle) : List Nat :=
  serializeHeader (writtenHeader b) ++ blobOf b ++ cnBOf b ++ tdbBOf b ++
    resBOf b ++ defHdrBOf b ++ strBOf b ++ payBOf b

/-- `Measure for WriteableBundle`: header size plus blob length plus the
index tables, definition headers, and definition payloads. -/
def measureB (b : ScriptBundle) : Nat :=
  104 + (stringDataOf b).length + b.cnames.length * 4 +
    b.tdb_ids.length * 4 + b.resources.length * 4 +
    b.definitions.length * 20 + b.strings.length * 4 +
    (b.definitions.map (fun d => d.payloadOf.length)).sum

/-- Well-formedness of string-data entries from a starting offset: each
entry's recorded offset is the running blob position, which advances by
`len + 1` per string. -/
def entriesWF : List (Str × Nat) → Nat → Prop
  | [], _ => True
  | (s, o) :: r, acc => o = acc ∧ entriesWF r (acc + s.length + 1)

/-- Total blob footprint of a list of entries. -/
def totalLen (es : List (Str × Nat)) : Nat :=
  (es.map (fun e => e.1.length + 1)).sum

/-- The canonical (u32-reduced) form a table descriptor assumes after a
serialize/parse round trip. -/
def canonTable (t : TableHeader) : TableHeader :=
  ⟨t.offset % 4294967296, t.count % 4294967296, t.hash % 4294967296⟩

/-- The canonical form a definition header assumes after a serialize/parse
round trip. -/
def canonDefHeader (h : DefHeader) : DefHeader :=
  ⟨h.name % 4294967296, h.parent % 4294967296, h.size % 4294967296,
    h.offset % 4294967296, h.kind % 4294967296⟩

/-- The canonical form a header assumes after a serialize/parse round
trip. -/
def canonHeader (h : Header) : Header :=
  ⟨h.magic.map (· % 256), h.version % 4294967296, h.flags % 4294967296,
    h.timestamp % 18446744073709551616, h.build % 4294967296,
    h.crc % 4294967296, h.segments % 4294967296,
    canonTable h.string_data, canonTable h.cnames,
    canonTable h.tweakdb_ids, canonTable h.resources,
    canonTable h.definitions, canonTable h.strings⟩

/-- A string free of interior NUL bytes (every string produced by a
zero-delimited read has this shape). -/
def noNulStr (s : Str) : Prop := ∀ b ∈ s, b ≠ 0

/-! ## Concrete inputs used by witnesses and counterexamples -/

/-- An all-zero table descriptor. -/
def zeroTable : TableHeader := ⟨0, 0, 0⟩

/-- A 104-byte buffer of zeros (wrong magic). -/
def zeroInput : List Nat := List.replicate 104 0

/-- The header parsed from `zeroInput`. -/
def zeroInputHeader : Header :=
  ⟨[0, 0, 0, 0], 0, 0, 0, 0, 0, 0, zeroTable, zeroTable, zeroTable,
    zeroTable, zeroTable, zeroTable⟩

/-- Correct magic but version 0. -/
def badVersionInput : List Nat := magicREDS ++ List.replicate 100 0

/-- The header parsed from `badVersionInput`. -/
def badVersionHeader : Header :=
  ⟨magicREDS, 0, 0, 0, 0, 0, 0, zeroTable, zeroTable, zeroTable,
    zeroTable, zeroTable, zeroTable⟩

/-- A minimal valid input: correct magic, version 14, all table counts
zero. -/
def minimalInput : List Nat := magicREDS ++ u32le 14 ++ List.replicate 96 0

/-- The header parsed from `minimalInput`. -/
def minimalHeader : Header :=
  ⟨magicREDS, 14, 0, 0, 0, 0, 0, zeroTable, zeroTable, zeroTable,
    zeroTable, zeroTable, zeroTable⟩

/-- A valid input whose timestamp field (bytes 12..20) is nonzero. -/
def tsInput : List Nat :=
  magicREDS ++ u32le 14 ++ u32le 0 ++ [1, 2, 3, 4, 5, 6, 7, 8] ++
    List.replicate 84 0

/-! ## Basic lemmas -/

theorem wrap16_eq_self {n : Int} (h1 : -32768 ≤ n) (h2 : n ≤ 32767) :
    wrap16 n = n := by
  unfold wrap16
  omega

theorem wrap16_bounds (n : Int) :
    -32768 ≤ wrap16 n ∧ wrap16 n ≤ 32767 := by
  unfold wrap16
  constructor <;> omega

theorem wrap16_add_cancel (n : Int) (k : Int) :
    wrap16 (wrap16 (n - k) + k) = wrap16 n := by
  unfold wrap16
  omega

/-! ## C4: offset biases -/

/-- Claim C4: for every control-flow operand, the constructor stores the
logical offset minus the fixed bias and the accessor adds the bias back,
so accessor-after-constructor is the identity on (16-bit) offsets:
Jump/JumpIfFalse/Skip/Context use bias 3 (all share `Jump`), Conditional
uses (3, 5), Switch first_case uses 11, SwitchLabel uses (3, 5); moreover
`Jump::new(10)` stores 7 and `target()` returns 10, and
`Conditional::new(20, 30)` stores `(17, 25)` and decodes to `(20, 30)`. -/
theorem offset_bias_roundtrip (t fl ex et fc nc bd : Int)
    (ht : -32768 ≤ t ∧ t ≤ 32767) (hfl : -32768 ≤ fl ∧ fl ≤ 32767)
    (hex : -32768 ≤ ex ∧ ex ≤ 32767) (hfc : -32768 ≤ fc ∧ fc ≤ 32767)
    (hnc : -32768 ≤ nc ∧ nc ≤ 32767) (hbd : -32768 ≤ bd ∧ bd ≤ 32767) :
    (Jump.new ⟨t⟩).getTarget = ⟨t⟩ ∧
    (Conditional.new ⟨fl⟩ ⟨ex⟩).getFalseLabel = ⟨fl⟩ ∧
    (Conditional.new ⟨fl⟩ ⟨ex⟩).getExit = ⟨ex⟩ ∧
    (Switch.new et.toNat ⟨fc⟩).getFirstCase = ⟨fc⟩ ∧
    (SwitchLabel.new ⟨nc⟩ ⟨bd⟩).getNextCase = ⟨nc⟩ ∧
    (SwitchLabel.new ⟨nc⟩ ⟨bd⟩).getBody = ⟨bd⟩ ∧
    (Jump.new ⟨10⟩).target = ⟨7⟩ ∧
    (Jump.new ⟨10⟩).getTarget = ⟨10⟩ ∧
    (Conditional.new ⟨20⟩ ⟨30⟩).false_label = ⟨17⟩ ∧
    (Conditional.new ⟨20⟩ ⟨30⟩).exit = ⟨25⟩ ∧
    (Conditional.new ⟨20⟩ ⟨30⟩).getFalseLabel = ⟨20⟩ ∧
    (Conditional.new ⟨20⟩ ⟨30⟩).getExit = ⟨30⟩ := by
  refine ⟨?_, ?_, ?_, ?_, ?_, ?_, ?_, ?_, ?_, ?_, ?_, ?_⟩ <;>
    simp only [Jump.new, Jump.getTarget, Conditional.new,
      Conditional.getFalseLabel, Conditional.getExit, Switch.new,
      Switch.getFirstCase, SwitchLabel.new, SwitchLabel.getNextCase,
      SwitchLabel.getBody, Offset.add, Offset.sub, wrap16,
      Offset.mk.injEq, Jump.mk.injEq, Switch.mk.injEq,
      SwitchLabel.mk.injEq, Conditional.mk.injEq] <;>
    omega

/-- Witness for C4 at concrete offsets. -/
theorem offset_bias_roundtrip_witness :
    (Jump.new ⟨10⟩).getTarget = ⟨10⟩ ∧
    (Conditional.new ⟨20⟩ ⟨30⟩).getExit = ⟨30⟩ := by
  have h := offset_bias_roundtrip 10 20 30 0 11 12 13
    (by norm_num) (by norm_num) (by norm_num) (by norm_num) (by norm_num)
    (by norm_num)
  exact ⟨h.1, h.2.2.1⟩

/-! ## C5 and C6: instruction sizes -/

/-- Claim C5: for every instruction, `Instr::size()` returns 1 (tag byte)
plus the operand size of the §4.3 table, except that the synthetic Target
opcode reports size 0; the Profile arm needs its encoded size to fit in
the `u16` the code computes it in. -/
theorem instr_size_matches_spec (i : Instr Offset) (h : profileFits i) :
    Instr.size i = specSize i := by
  cases i <;>
    first
      | rfl
      | (simp only [profileFits] at h
         simp only [Instr.size, specSize, specOperandSize]
         omega)

/-- Witness for C5 at concrete instructions. -/
theorem instr_size_matches_spec_witness :
    Instr.size ((Instr.Jump (Jump.new ⟨10⟩) : Instr Offset)) =
      specSize ((Instr.Jump (Jump.new ⟨10⟩) : Instr Offset)) ∧
    Instr.size ((Instr.Profile ⟨[170, 187, 204], true⟩ : Instr Offset)) =
      specSize ((Instr.Profile ⟨[170, 187, 204], true⟩ : Instr Offset)) :=
  ⟨instr_size_matches_spec _ trivial,
   instr_size_matches_spec _ (by norm_num [profileFits])⟩

/-- Counterexample to claim C6 as stated: for the Profile instruction with
a 3-byte function vector, `size()` reports 9, not `5 + function.len() = 8`
— the total encoded size is `1 + (4 + function.len() + 1)`. -/
theorem profile_size_counterexample :
    Instr.size ((Instr.Profile ⟨[170, 187, 204], true⟩ : Instr Offset)) = 9 ∧
    Instr.size ((Instr.Profile ⟨[170, 187, 204], true⟩ : Instr Offset)) ≠
      5 + [170, 187, 204].length := by
  constructor <;> decide

/-- Claim C6 as amended: for every Profile instruction (whose encoded size
fits the `u16` computation), the total encoded size reported by `size()`
equals `6 + function.len()`, i.e. `1` tag byte plus `5 + function.len()`
operand bytes. -/
theorem profile_size_amended (f : List Nat) (e : Bool)
    (h : 6 + f.length < 65536) :
    Instr.size (Instr.Profile ⟨f, e⟩ : Instr Offset) = 6 + f.length := by
  simp only [Instr.size]
  omega

/-- Witness for the amended C6. -/
theorem profile_size_amended_witness :
    Instr.size ((Instr.Profile ⟨[170, 187, 204], true⟩ : Instr Offset)) =
      6 + [170, 187, 204].length :=
  profile_size_amended [170, 187, 204] true (by norm_num)

/-! ## C7: string pool interning -/

theorem idxOf_none_iff {p : List Str} {s : Str} :
    idxOf p s = none ↔ s ∉ p := by
  induction p with
  | nil => simp [idxOf]
  | cons t r ih =>
    by_cases h : t = s
    · subst h
      simp [idxOf]
    · simp only [idxOf, if_neg h, List.mem_cons]
      cases hr : idxOf r s with
      | none =>
        simp only [Option.map_none']
        rw [hr] at ih
        simp only [true_iff] at ih
        constructor
        · intro _ hc
          rcases hc with hc | hc
          · exact h hc.symm
          · exact ih hc
        · intro _; trivial
      | some i =>
        simp only [Option.map_some']
        rw [hr] at ih
        constructor
        · intro hc; exact absurd hc (by simp)
        · intro hc
          have : s ∈ r := by
            by_contra hn
            have := ih.mpr hn
            exact absurd this (by simp)
          exact absurd this (by tauto)

theorem idxOf_lt {p : List Str} {s : Str} {i : Nat}
    (h : idxOf p s = some i) : i < p.length := by
  induction p generalizing i with
  | nil => simp [idxOf] at h
  | cons t r ih =>
    simp only [idxOf] at h
    split at h
    · cases h; simp
    · cases hr : idxOf r s with
      | none => rw [hr] at h; simp at h
      | some j =>
        rw [hr] at h
        simp only [Option.map_some', Option.some.injEq] at h
        subst h
        simpa [Nat.succ_lt_succ_iff] using ih hr

theorem idxOf_append_self {p : List Str} {s : Str} (h : s ∉ p) :
    idxOf (p ++ [s]) s = some p.length := by
  induction p with
  | nil => simp [idxOf]
  | cons t r ih =>
    simp only [List.mem_cons, not_or] at h
    have h1 : ¬ t = s := fun hc => h.1 hc.symm
    simp only [List.cons_append, idxOf, if_neg h1, List.append_eq,
      ih h.2, Option.map_some', List.length_cons]

/-- Claim C7: in a string pool whose size fits the `u32` index space,
adding the same string twice returns the same index both times, the index
assigned to a fresh string is the pool's previous length (so indices are
contiguous from 0 in insertion order), and after `i = add(s)`,
`get_index(s)` returns `Some i`. -/
theorem string_pool_interning (p : List Str) (s : Str)
    (h : p.length < 4294967296) :
    (poolAdd (poolAdd p s).1 s).2 = (poolAdd p s).2 ∧
    (s ∉ p → (poolAdd p s).2 = p.length) ∧
    poolGetIndex (poolAdd p s).1 s = some (poolAdd p s).2 := by
  cases hq : idxOf p s with
  | some i =>
    have hmem : s ∈ p := by
      by_contra hc
      rw [idxOf_none_iff.mpr hc] at hq
      exact absurd hq (by simp)
    refine ⟨?_, fun hc => absurd hmem hc, ?_⟩ <;>
      simp [poolAdd, poolGetIndex, hq]
  | none =>
    have hmem : s ∉ p := idxOf_none_iff.mp hq
    have happ := idxOf_append_self hmem
    refine ⟨?_, fun _ => ?_, ?_⟩ <;>
      simp [poolAdd, poolGetIndex, hq, happ, Nat.mod_eq_of_lt h]

/-- Witness for C7 on a concrete pool. -/
theorem string_pool_interning_witness :
    ([[1], [2]] : List Str).length < 4294967296 ∧
    (poolAdd (poolAdd [[1], [2]] [3]).1 [3]).2 =
      (poolAdd [[1], [2]] [3]).2 ∧
    ([3] ∉ ([[1], [2]] : List Str) → (poolAdd [[1], [2]] [3]).2 = 2) ∧
    poolGetIndex (poolAdd [[1], [2]] [3]).1 [3] =
      some (poolAdd [[1], [2]] [3]).2 :=
  ⟨by norm_num, string_pool_interning [[1], [2]] [3] (by norm_num)⟩

/-! ## Slice lemmas -/

theorem sliceAt_pre (pre mid post : List Nat) :
    sliceAt (pre ++ mid ++ post) pre.length mid.length = mid := by
  rw [sliceAt, List.append_assoc, List.drop_left, List.take_left]

theorem serializeHeader_timestamp_slice (h : Header) (rest : List Nat)
    (hm : h.magic.length = 4) :
    sliceAt (serializeHeader h ++ rest) 12 8 = u64le h.timestamp := by
  have hsplit : serializeHeader h ++ rest =
      (h.magic.map (· % 256) ++ u32le h.version ++ u32le h.flags) ++
        u64le h.timestamp ++
        (u32le h.build ++ u32le h.crc ++ u32le h.segments ++
          serializeTableHeader h.string_data ++
          serializeTableHeader h.cnames ++
          serializeTableHeader h.tweakdb_ids ++
          serializeTableHeader h.resources ++
          serializeTableHeader h.definitions ++
          serializeTableHeader h.strings ++ rest) := by
    simp [serializeHeader]
  have hlen : (h.magic.map (· % 256) ++ u32le h.version ++
      u32le h.flags).length = 12 := by
    simp [u32le, hm]
  have hlen8 : (u64le h.timestamp).length = 8 := by
    simp [u64le, u32le]
  rw [hsplit, ← hlen, ← hlen8, sliceAt_pre]

/-! ## C2: magic and version validation -/

/-- Claim C2: whenever the input parses to a header (the buffer holds the
104 header bytes), `BundleReader::new` fails with
BadInput("invalid magic number") when the magic is not `REDS`, fails with
BadInput("unsupported version") when the magic is correct but the version
is not 14, and returns a reader exactly when both are valid. -/
theorem magic_version_validation (bytes : List Nat) (h : Header)
    (hp : parseHeader bytes = some h) :
    (h.magic ≠ magicREDS →
      bundleReaderNew bytes = .error (.badInput invalidMagicMsg)) ∧
    (h.magic = magicREDS → h.version ≠ supportedVersion →
      bundleReaderNew bytes = .error (.badInput unsupportedVersionMsg)) ∧
    (h.magic = magicREDS → h.version = supportedVersion →
      bundleReaderNew bytes = .ok h) := by
  refine ⟨fun hm => ?_, fun hm hv => ?_, fun hm hv => ?_⟩
  · simp [bundleReaderNew, hp, hm]
  · simp [bundleReaderNew, hp, hm, hv]
  · simp [bundleReaderNew, hp, hm, hv]

/-- Witness for C2: all three branches at concrete buffers. -/
theorem magic_version_validation_witness :
    bundleReaderNew zeroInput = .error (.badInput invalidMagicMsg) ∧
    bundleReaderNew badVersionInput =
      .error (.badInput unsupportedVersionMsg) ∧
    bundleReaderNew minimalInput = .ok minimalHeader :=
  ⟨(magic_version_validation zeroInput zeroInputHeader (by decide)).1
      (by decide),
   (magic_version_validation badVersionInput badVersionHeader
      (by decide)).2.1 (by decide) (by decide),
   (magic_version_validation minimalInput minimalHeader
      (by decide)).2.2 (by decide) (by decide)⟩

/-! ## C3: the Undefined sentinel and `define` -/

/-- Claim C3: a fresh bundle has exactly the Undefined sentinel at index
0; every bundle read by `from_bytes` has a non-empty definitions vector
whose head is Undefined regardless of the record at index 0 on disk;
`define` (on a bundle whose definitions vector is non-empty and of a size
that fits the `u32` cast) returns a strictly positive index and keeps the
vector non-empty; `into_owned` preserves non-emptiness and the head. -/
theorem undefined_sentinel_invariant :
    defaultBundle.definitions = [Defn.undefined] ∧
    (∀ bytes b, fromBytes bytes = some b →
      b.definitions ≠ [] ∧ b.definitions.head? = some .undefined) ∧
    (∀ (b : ScriptBundle) (d : Defn), b.definitions ≠ [] →
      b.definitions.length < 4294967296 →
      0 < (b.define d).2 ∧ (b.define d).1.definitions ≠ []) ∧
    (∀ b : ScriptBundle, b.definitions ≠ [] →
      b.intoOwned.definitions ≠ [] ∧
      b.intoOwned.definitions.head? = b.definitions.head?) := by
  refine ⟨rfl, fun bytes b hb => ?_, fun b d hne hlt => ?_,
    fun b hne => ?_⟩
  · unfold fromBytes at hb
    split at hb
    · unfold fromReader at hb
      simp only [bind, Option.bind_eq_some, Option.pure_def,
        Option.some.injEq] at hb
      obtain ⟨cn, _, tdb, _, res, _, strs, _, defs, _, hb⟩ := hb
      subst hb
      exact ⟨by simp, rfl⟩
    · exact absurd hb (by simp)
  · constructor
    · have : b.definitions.length % 4294967296 = b.definitions.length :=
        Nat.mod_eq_of_lt hlt
      simp only [ScriptBundle.define, this]
      exact List.length_pos.mpr hne
    · simp [ScriptBundle.define]
  · cases hd : b.definitions with
    | nil => exact absurd hd hne
    | cons d rest =>
      simp [ScriptBundle.intoOwned, hd]

/-- Witness for C3 at concrete inputs. -/
theorem undefined_sentinel_invariant_witness :
    (defaultBundle.definitions ≠ [] ∧
      defaultBundle.definitions.head? = some .undefined) ∧
    (0 < (defaultBundle.define (.record .Class 0 0 [])).2 ∧
      (defaultBundle.define (.record .Class 0 0 [])).1.definitions ≠ []) ∧
    (defaultBundle.intoOwned.definitions ≠ [] ∧
      defaultBundle.intoOwned.definitions.head? =
        defaultBundle.definitions.head?) :=
  ⟨undefined_sentinel_invariant.2.1 minimalInput defaultBundle (by decide),
   undefined_sentinel_invariant.2.2.1 defaultBundle (.record .Class 0 0 [])
     (by decide) (by decide),
   undefined_sentinel_invariant.2.2.2 defaultBundle (by decide)⟩

/-! ## C10: the timestamp field -/

/-- Counterexample to claim C10 as stated: `tsInput` is a valid input
whose timestamp field (bytes 12..20) is `[1,2,3,4,5,6,7,8]`, it reads
successfully, yet writing the resulting bundle emits timestamp bytes
`[0,0,0,0,0,0,0,0]` — the packing does not round-trip. -/
theorem timestamp_roundtrip_counterexample :
    (fromBytes tsInput).map
        (fun b => sliceAt (tryWriteBytes b) 12 8) =
      some [0, 0, 0, 0, 0, 0, 0, 0] ∧
    sliceAt tsInput 12 8 = [1, 2, 3, 4, 5, 6, 7, 8] ∧
    ([1, 2, 3, 4, 5, 6, 7, 8] : List Nat) ≠ [0, 0, 0, 0, 0, 0, 0, 0] := by
  refine ⟨?_, by decide, by decide⟩
  decide

/-- Claim C10 as amended: the bundle does not retain the input header, and
`try_write` stamps `Timestamp::new()` (an all-zero bitfield), so the
written timestamp field (bytes 12..20) is always the zero value, whatever
the input's timestamp was. -/
theorem timestamp_zeroed_on_write (b : ScriptBundle) :
    sliceAt (tryWriteBytes b) 12 8 = [0, 0, 0, 0, 0, 0, 0, 0] := by
  have h1 : tryWriteBytes b = serializeHeader (writtenHeader b) ++
      (blobOf b ++ (cnBOf b ++ (tdbBOf b ++ (resBOf b ++ (defHdrBOf b ++
        (strBOf b ++ payBOf b)))))) := by
    rw [tryWriteBytes]
    simp [List.append_assoc]
  have hm : (writtenHeader b).magic.length = 4 := rfl
  rw [h1, serializeHeader_timestamp_slice _ _ hm]
  have ht : (writtenHeader b).timestamp = 0 := rfl
  rw [ht]
  rfl

/-! ## String-data lemmas (write-time dedup) -/

theorem totalLen_append (es fs : List (Str × Nat)) :
    totalLen (es ++ fs) = totalLen es + totalLen fs := by
  simp [totalLen]

theorem entriesWF_snoc {es : List (Str × Nat)} {acc : Nat} (s : Str)
    (h : entriesWF es acc) :
    entriesWF (es ++ [(s, acc + totalLen es)]) acc := by
  induction es generalizing acc with
  | nil => simpa [entriesWF, totalLen] using h
  | cons e r ih =>
    obtain ⟨t, o⟩ := e
    obtain ⟨h1, h2⟩ := h
    refine ⟨h1, ?_⟩
    have := ih h2
    have harith : acc + totalLen ((t, o) :: r) =
        acc + t.length + 1 + totalLen r := by
      simp [totalLen]
      ring
    simpa [harith] using this

theorem insert_step (sd : StringData) (s : Str)
    (h1 : entriesWF sd.entries 0) (h2 : sd.length = totalLen sd.entries)
    (h3 : sd.keys.Nodup) :
    entriesWF (sd.insert s).entries 0 ∧
    (sd.insert s).length = totalLen (sd.insert s).entries ∧
    (sd.insert s).keys.Nodup ∧
    (∀ x, x ∈ (sd.insert s).keys ↔ x ∈ sd.keys ∨ x = s) := by
  unfold StringData.insert
  by_cases hm : s ∈ sd.keys
  · simp only [if_pos hm]
    exact ⟨h1, h2, h3, fun x => ⟨fun h => Or.inl h,
      fun h => h.elim id (fun he => he ▸ hm)⟩⟩
  · simp only [if_neg hm]
    have hwf : entriesWF (sd.entries ++ [(s, sd.length)]) 0 := by
      have := entriesWF_snoc s h1
      rwa [Nat.zero_add, ← h2] at this
    have hkeys : (⟨sd.entries ++ [(s, sd.length)],
        sd.length + s.length + 1⟩ : StringData).keys =
        sd.keys ++ [s] := by
      simp [StringData.keys]
    refine ⟨hwf, ?_, ?_, ?_⟩
    · simp only [totalLen_append]
      simp [totalLen, h2]
      ring
    · rw [hkeys]
      simp [List.nodup_append, h3, hm]
    · intro x
      rw [hkeys]
      simp [List.mem_append]

theorem extendWith_wf (l : List Str) (sd : StringData)
    (h1 : entriesWF sd.entries 0) (h2 : sd.length = totalLen sd.entries)
    (h3 : sd.keys.Nodup) :
    entriesWF (sd.extendWith l).entries 0 ∧
    (sd.extendWith l).length = totalLen (sd.extendWith l).entries ∧
    (sd.extendWith l).keys.Nodup ∧
    (∀ x, x ∈ (sd.extendWith l).keys ↔ x ∈ sd.keys ∨ x ∈ l) := by
  induction l generalizing sd with
  | nil =>
    refine ⟨h1, h2, h3, fun x => ?_⟩
    simp [StringData.extendWith]
  | cons s r ih =>
    obtain ⟨g1, g2, g3, g4⟩ := insert_step sd s h1 h2 h3
    obtain ⟨k1, k2, k3, k4⟩ := ih (sd.insert s) g1 g2 g3
    have hfold : sd.extendWith (s :: r) = (sd.insert s).extendWith r := rfl
    rw [hfold]
    refine ⟨k1, k2, k3, fun x => ?_⟩
    rw [k4 x, g4 x]
    simp [List.mem_cons]
    tauto

theorem stringDataOf_wf (b : ScriptBundle) :
    entriesWF (stringDataOf b).entries 0 ∧
    (stringDataOf b).length = totalLen (stringDataOf b).entries ∧
    (stringDataOf b).keys.Nodup ∧
    (∀ x, x ∈ (stringDataOf b).keys ↔
      x ∈ b.cnames ++ b.tdb_ids ++ b.resources ++ b.strings) := by
  have h := extendWith_wf
    (b.cnames ++ b.tdb_ids ++ b.resources ++ b.strings) ⟨[], 0⟩
    trivial rfl (by simp [StringData.keys])
  refine ⟨h.1, h.2.1, h.2.2.1, fun x => ?_⟩
  have hx := h.2.2.2 x
  simp only [StringData.keys, List.map_nil, List.not_mem_nil,
    false_or] at hx
  exact hx

theorem sdBlob_length (sd : StringData)
    (h2 : sd.length = totalLen sd.entries) :
    (sdBlob sd).length = sd.length := by
  rw [h2]
  simp only [sdBlob, StringData.keys, totalLen, List.map_map]
  induction sd.entries with
  | nil => rfl
  | cons e r ih =>
    simp_all [Function.comp]
    omega

theorem entriesWF_blob_split {es : List (Str × Nat)} {acc : Nat}
    {s : Str} {o : Nat} (hwf : entriesWF es acc) (hm : (s, o) ∈ es) :
    ∃ pre post,
      ((es.map Prod.fst).map (fun t => t ++ [0])).flatten =
        pre ++ (s ++ [0]) ++ post ∧ acc + pre.length = o := by
  induction es generalizing acc with
  | nil => cases hm
  | cons e r ih =>
    obtain ⟨t, u⟩ := e
    obtain ⟨h1, h2⟩ := hwf
    rcases List.mem_cons.mp hm with he | he
    · obtain ⟨rfl, rfl⟩ := Prod.mk.injEq .. ▸ he
      exact ⟨[], ((r.map Prod.fst).map (fun t => t ++ [0])).flatten,
        by simp, by simpa using h1.symm⟩
    · obtain ⟨pre, post, hb, ho⟩ := ih h2 he
      refine ⟨(t ++ [0]) ++ pre, post, ?_, ?_⟩
      · simp only [List.map_cons, List.flatten_cons, hb]
        simp [List.append_assoc]
      · simp only [List.length_append, List.length_cons,
          List.length_nil] at ho ⊢
        omega

theorem sd_lookup_mem {sd : StringData} {s : Str} (h : s ∈ sd.keys) :
    ∃ off, sd.lookup s = some off ∧ (s, off) ∈ sd.entries := by
  unfold StringData.lookup
  cases hfind : sd.entries.find? (fun e => decide (e.1 = s)) with
  | none =>
    exfalso
    obtain ⟨e, he, hes⟩ := List.mem_map.mp h
    have := List.find?_eq_none.mp hfind e he
    simp [hes] at this
  | some e =>
    have hmem := List.mem_of_find?_eq_some hfind
    have hp := List.find?_some hfind
    simp only [decide_eq_true_eq] at hp
    refine ⟨e.2, rfl, ?_⟩
    rw [← hp]
    simpa using hmem

theorem count_eq_one_of_nodup_mem {s : Str} {l : List Str}
    (hn : l.Nodup) (hm : s ∈ l) : l.count s = 1 := by
  induction l with
  | nil => cases hm
  | cons t r ih =>
    rw [List.count_cons]
    rcases List.mem_cons.mp hm with rfl | hm2
    · have hout : s ∉ r := (List.nodup_cons.mp hn).1
      have : r.count s = 0 := List.count_eq_zero.mpr hout
      simp [this]
    · have hne : ¬ t = s := by
        rintro rfl
        exact (List.nodup_cons.mp hn).1 hm2
      have := ih (List.nodup_cons.mp hn).2 hm2
      simp [this, hne]

/-! ## Segment length lemmas -/

theorem serializeHeader_length (h : Header) (hm : h.magic.length = 4) :
    (serializeHeader h).length = 104 := by
  simp [serializeHeader, serializeTableHeader, u32le, u64le, hm]

theorem serH_len (b : ScriptBundle) :
    (serializeHeader (writtenHeader b)).length = 104 :=
  serializeHeader_length _ rfl

theorem poolTableBytes_length (sd : StringData) (p : List Str) :
    (poolTableBytes sd p).length = 4 * p.length := by
  induction p with
  | nil => rfl
  | cons s r ih =>
    simp only [poolTableBytes, List.map_cons, List.flatten_cons,
      List.length_append] at ih ⊢
    simp [u32le] at ih ⊢
    omega

theorem writePayloads_snd_length (ds : List Defn) (pos : Nat) :
    ((writePayloads ds pos).2).length = ds.length := by
  induction ds generalizing pos with
  | nil => rfl
  | cons d rest ih =>
    simp only [writePayloads, List.length_cons]
    rw [ih]

theorem flatten_hdrs_length (l : List DefHeader) :
    ((l.map serializeDefHeader).flatten).length = 20 * l.length := by
  induction l with
  | nil => rfl
  | cons h r ih =>
    simp only [List.map_cons, List.flatten_cons, List.length_append, ih,
      List.length_cons]
    have : (serializeDefHeader h).length = 20 := rfl
    omega

theorem length_tail_of_ne_nil {l : List Defn} (h : l ≠ []) :
    l.length = l.tail.length + 1 := by
  cases l with
  | nil => exact absurd rfl h
  | cons a r => simp

theorem defHdrBOf_length (b : ScriptBundle) (hne : b.definitions ≠ []) :
    (defHdrBOf b).length = 20 * b.definitions.length := by
  simp only [defHdrBOf, tailHdrsOf, List.length_append,
    flatten_hdrs_length, writePayloads_snd_length]
  have h20 : (serializeDefHeader defaultDefHeader).length = 20 := rfl
  rw [h20, length_tail_of_ne_nil hne]
  omega

theorem blobOf_length (b : ScriptBundle) :
    (blobOf b).length = (stringDataOf b).length :=
  sdBlob_length _ (stringDataOf_wf b).2.1

theorem sliceAt_pre_r (pre mid post : List Nat) :
    sliceAt (pre ++ (mid ++ post)) pre.length mid.length = mid := by
  rw [sliceAt, List.drop_left, List.take_left]

theorem sliceAt_of_eq (l pre mid post : List Nat) (off n : Nat)
    (hl : l = pre ++ (mid ++ post)) (ho : off = pre.length)
    (hn : n = mid.length) : sliceAt l off n = mid := by
  subst hl ho hn
  exact sliceAt_pre_r pre mid post

/-! ## C8: global write-time string dedup -/

/-- Claim C8: at write time the global string-data map contains each
distinct string of the four pools exactly once; the blob's byte length and
the string_data descriptor's count equal the sum of `len + 1` over the
distinct strings; each entry's offset is the byte position of its single
zero-terminated copy inside the blob; and the offset lookup used to emit
every pool's table succeeds on every pool string — so a string present in
two pools is stored once and both tables reference the same offset. -/
theorem string_data_dedup (b : ScriptBundle) :
    (stringDataOf b).keys.Nodup ∧
    (∀ s, s ∈ (stringDataOf b).keys ↔
      s ∈ b.cnames ++ b.tdb_ids ++ b.resources ++ b.strings) ∧
    (sdBlob (stringDataOf b)).length = (stringDataOf b).length ∧
    (stringDataOf b).length =
      totalLen (stringDataOf b).entries ∧
    (writtenHeader b).string_data.count = (stringDataOf b).length ∧
    (∀ s off, (s, off) ∈ (stringDataOf b).entries →
      ∃ pre post, sdBlob (stringDataOf b) = pre ++ (s ++ [0]) ++ post ∧
        pre.length = off) ∧
    (∀ s, s ∈ b.cnames ++ b.tdb_ids ++ b.resources ++ b.strings →
      ∃ off, (stringDataOf b).lookup s = some off ∧
        (stringDataOf b).keys.count s = 1) := by
  obtain ⟨h1, h2, h3, h4⟩ := stringDataOf_wf b
  refine ⟨h3, fun s => h4 s, sdBlob_length _ h2, h2, rfl,
    fun s off hm => ?_, fun s hs => ?_⟩
  · obtain ⟨pre, post, hb, ho⟩ := entriesWF_blob_split h1 hm
    exact ⟨pre, post, hb, by simpa using ho⟩
  · have hk : s ∈ (stringDataOf b).keys := (h4 s).mpr hs
    obtain ⟨off, hoff, _⟩ := sd_lookup_mem hk
    refine ⟨off, hoff, ?_⟩
    exact count_eq_one_of_nodup_mem h3 hk

/-! ## C9: per-table CRCs and the header CRC -/

/-- Claim C9: in every written bundle (with the always-present sentinel
definition), each table descriptor's hash equals the CRC-32 of exactly the
bytes that table occupies in the output buffer (at the descriptor's offset,
for the table's byte footprint), and the header's crc field equals the
CRC-32 of the serialized header with the crc field set to 0xDEADBEEF. -/
theorem table_and_header_crc (b : ScriptBundle)
    (hne : b.definitions ≠ []) :
    (writtenHeader b).string_data.hash =
      crc32 (sliceAt (tryWriteBytes b)
        (writtenHeader b).string_data.offset
        (writtenHeader b).string_data.count) ∧
    (writtenHeader b).cnames.hash =
      crc32 (sliceAt (tryWriteBytes b) (writtenHeader b).cnames.offset
        (4 * (writtenHeader b).cnames.count)) ∧
    (writtenHeader b).tweakdb_ids.hash =
      crc32 (sliceAt (tryWriteBytes b)
        (writtenHeader b).tweakdb_ids.offset
        (4 * (writtenHeader b).tweakdb_ids.count)) ∧
    (writtenHeader b).resources.hash =
      crc32 (sliceAt (tryWriteBytes b) (writtenHeader b).resources.offset
        (4 * (writtenHeader b).resources.count)) ∧
    (writtenHeader b).definitions.hash =
      crc32 (sliceAt (tryWriteBytes b)
        (writtenHeader b).definitions.offset
        (20 * (writtenHeader b).definitions.count)) ∧
    (writtenHeader b).strings.hash =
      crc32 (sliceAt (tryWriteBytes b) (writtenHeader b).strings.offset
        (4 * (writtenHeader b).strings.count)) ∧
    (writtenHeader b).crc =
      crc32 (serializeHeader { writtenHeader b with crc := 0xDEADBEEF })
    := by
  have h1 : sliceAt (tryWriteBytes b)
      (writtenHeader b).string_data.offset
      (writtenHeader b).string_data.count = blobOf b := by
    apply sliceAt_of_eq _ (serializeHeader (writtenHeader b)) (blobOf b)
      (cnBOf b ++ (tdbBOf b ++ (resBOf b ++ (defHdrBOf b ++
        (strBOf b ++ payBOf b)))))
    · rw [tryWriteBytes]
      simp [List.append_assoc]
    · rw [serH_len]
      rfl
    · rw [blobOf_length]
      rfl
  have h2 : sliceAt (tryWriteBytes b) (writtenHeader b).cnames.offset
      (4 * (writtenHeader b).cnames.count) = cnBOf b := by
    apply sliceAt_of_eq _
      (serializeHeader (writtenHeader b) ++ blobOf b) (cnBOf b)
      (tdbBOf b ++ (resBOf b ++ (defHdrBOf b ++ (strBOf b ++ payBOf b))))
    · rw [tryWriteBytes]
      simp [List.append_assoc]
    · simp only [List.length_append, serH_len]
      rfl
    · rw [cnBOf, poolTableBytes_length]
      rfl
  have h3 : sliceAt (tryWriteBytes b) (writtenHeader b).tweakdb_ids.offset
      (4 * (writtenHeader b).tweakdb_ids.count) = tdbBOf b := by
    apply sliceAt_of_eq _
      (serializeHeader (writtenHeader b) ++ blobOf b ++ cnBOf b)
      (tdbBOf b)
      (resBOf b ++ (defHdrBOf b ++ (strBOf b ++ payBOf b)))
    · rw [tryWriteBytes]
      simp [List.append_assoc]
    · simp only [List.length_append, serH_len]
      rfl
    · rw [tdbBOf, poolTableBytes_length]
      rfl
  have h4 : sliceAt (tryWriteBytes b) (writtenHeader b).resources.offset
      (4 * (writtenHeader b).resources.count) = resBOf b := by
    apply sliceAt_of_eq _
      (serializeHeader (writtenHeader b) ++ blobOf b ++ cnBOf b ++
        tdbBOf b) (resBOf b)
      (defHdrBOf b ++ (strBOf b ++ payBOf b))
    · rw [tryWriteBytes]
      simp [List.append_assoc]
    · simp only [List.length_append, serH_len]
      rfl
    · rw [resBOf, poolTableBytes_length]
      rfl
  have h5 : sliceAt (tryWriteBytes b) (writtenHeader b).definitions.offset
      (20 * (writtenHeader b).definitions.count) = defHdrBOf b := by
    apply sliceAt_of_eq _
      (serializeHeader (writtenHeader b) ++ blobOf b ++ cnBOf b ++
        tdbBOf b ++ resBOf b) (defHdrBOf b)
      (strBOf b ++ payBOf b)
    · rw [tryWriteBytes]
      simp [List.append_assoc]
    · simp only [List.length_append, serH_len]
      rfl
    · rw [defHdrBOf_length b hne]
      rfl
  have h6 : sliceAt (tryWriteBytes b) (writtenHeader b).strings.offset
      (4 * (writtenHeader b).strings.count) = strBOf b := by
    apply sliceAt_of_eq _
      (serializeHeader (writtenHeader b) ++ blobOf b ++ cnBOf b ++
        tdbBOf b ++ resBOf b ++ defHdrBOf b) (strBOf b) (payBOf b)
    · rw [tryWriteBytes]
      simp [List.append_assoc]
    · simp only [List.length_append, serH_len, defHdrBOf_length b hne]
      rfl
    · rw [strBOf, poolTableBytes_length]
      rfl
  rw [h1, h2, h3, h4, h5, h6]
  exact ⟨rfl, rfl, rfl, rfl, rfl, rfl, rfl⟩

/-- Witness for C9 at the default bundle. -/
theorem table_and_header_crc_witness :
    defaultBundle.definitions ≠ [] ∧
    (writtenHeader defaultBundle).crc =
      crc32 (serializeHeader
        { writtenHeader defaultBundle with crc := 0xDEADBEEF }) :=
  ⟨by decide, (table_and_header_crc defaultBundle (by decide)).2.2.2.2.2.2⟩

/-! ## Primitive read-back lemmas -/

theorem readU32_lt {l : List Nat} {pos n : Nat}
    (h : readU32 l pos = some n) : n < 4294967296 := by
  unfold readU32 at h
  split at h
  · injection h with h
    omega
  · cases h

theorem readU32_pre (pre rest : List Nat) (n : Nat) :
    readU32 (pre ++ (u32le n ++ rest)) pre.length = some (n % 4294967296)
    := by
  unfold readU32
  rw [List.drop_left]
  show some _ = some _
  exact congrArg some (by omega)

theorem readU64_pre (pre rest : List Nat) (n : Nat) :
    readU64 (pre ++ (u64le n ++ rest)) pre.length =
      some (n % 18446744073709551616) := by
  have h1 : readU32 (pre ++ (u64le n ++ rest)) pre.length =
      some (n % 4294967296 % 4294967296) := by
    have : pre ++ (u64le n ++ rest) =
        pre ++ (u32le (n % 4294967296) ++ (u32le (n / 4294967296) ++
          rest)) := by
      simp [u64le, List.append_assoc]
    rw [this]
    exact readU32_pre _ _ _
  have h2 : readU32 (pre ++ (u64le n ++ rest)) (pre.length + 4) =
      some (n / 4294967296 % 4294967296) := by
    have heq : pre ++ (u64le n ++ rest) =
        (pre ++ u32le (n % 4294967296)) ++
          (u32le (n / 4294967296) ++ rest) := by
      simp [u64le, List.append_assoc]
    have hlen : pre.length + 4 =
        (pre ++ u32le (n % 4294967296)).length := by
      simp [u32le]
    rw [heq, hlen]
    exact readU32_pre _ _ _
  unfold readU64
  rw [h1, h2]
  exact congrArg some (by omega)

theorem readBytes_pre (pre chunk rest : List Nat) :
    readBytes (pre ++ (chunk ++ rest)) pre.length chunk.length =
      some chunk := by
  unfold readBytes
  rw [if_pos (by simp [List.length_append])]
  rw [List.drop_left, List.take_left]

theorem takeWhile_append_nul (s rest : List Nat) (h : noNulStr s) :
    (s ++ (0 :: rest)).takeWhile (fun b => b != 0) = s := by
  induction s with
  | nil => simp
  | cons a t ih =>
    have ha : a ≠ 0 := h a (by simp)
    have ht : noNulStr t := fun b hb => h b (by simp [hb])
    simp only [List.cons_append, List.takeWhile_cons]
    rw [if_pos (by simpa using ha)]
    rw [List.cons.injEq]
    exact ⟨rfl, ih ht⟩

theorem readCStr_pre (pre s rest : List Nat) (h : noNulStr s) :
    readCStr (pre ++ (s ++ (0 :: rest))) pre.length = some s := by
  unfold readCStr
  rw [List.drop_left]
  have hany : (s ++ (0 :: rest)).any (fun b => b == 0) = true := by
    simp
  rw [if_pos hany]
  exact congrArg some (takeWhile_append_nul s rest h)

theorem parseTableHeader_pre (pre rest : List Nat) (t : TableHeader) :
    parseTableHeader (pre ++ (serializeTableHeader t ++ rest))
      pre.length = some (canonTable t) := by
  have h1 : readU32 (pre ++ (serializeTableHeader t ++ rest)) pre.length =
      some (t.offset % 4294967296) := by
    have : pre ++ (serializeTableHeader t ++ rest) =
        pre ++ (u32le t.offset ++ (u32le t.count ++ (u32le t.hash ++
          rest))) := by
      simp [serializeTableHeader, List.append_assoc]
    rw [this]
    exact readU32_pre _ _ _
  have h2 : readU32 (pre ++ (serializeTableHeader t ++ rest))
      (pre.length + 4) = some (t.count % 4294967296) := by
    have heq : pre ++ (serializeTableHeader t ++ rest) =
        (pre ++ u32le t.offset) ++ (u32le t.count ++ (u32le t.hash ++
          rest)) := by
      simp [serializeTableHeader, List.append_assoc]
    have hlen : pre.length + 4 = (pre ++ u32le t.offset).length := by
      simp [u32le]
    rw [heq, hlen]
    exact readU32_pre _ _ _
  have h3 : readU32 (pre ++ (serializeTableHeader t ++ rest))
      (pre.length + 8) = some (t.hash % 4294967296) := by
    have heq : pre ++ (serializeTableHeader t ++ rest) =
        (pre ++ u32le t.offset ++ u32le t.count) ++ (u32le t.hash ++
          rest) := by
      simp [serializeTableHeader, List.append_assoc]
    have hlen : pre.length + 8 =
        (pre ++ u32le t.offset ++ u32le t.count).length := by
      simp [u32le]
    rw [heq, hlen]
    exact readU32_pre _ _ _
  simp [parseTableHeader, h1, h2, h3, canonTable]

theorem parseDefHeader_pre (pre rest : List Nat) (h : DefHeader) :
    parseDefHeader (pre ++ (serializeDefHeader h ++ rest)) pre.length =
      some (canonDefHeader h) := by
  have h1 : readU32 (pre ++ (serializeDefHeader h ++ rest)) pre.length =
      some (h.name % 4294967296) := by
    have : pre ++ (serializeDefHeader h ++ rest) =
        pre ++ (u32le h.name ++ (u32le h.parent ++ (u32le h.size ++
          (u32le h.offset ++ (u32le h.kind ++ rest))))) := by
      simp [serializeDefHeader, List.append_assoc]
    rw [this]
    exact readU32_pre _ _ _
  have h2 : readU32 (pre ++ (serializeDefHeader h ++ rest))
      (pre.length + 4) = some (h.parent % 4294967296) := by
    have heq : pre ++ (serializeDefHeader h ++ rest) =
        (pre ++ u32le h.name) ++ (u32le h.parent ++ (u32le h.size ++
          (u32le h.offset ++ (u32le h.kind ++ rest)))) := by
      simp [serializeDefHeader, List.append_assoc]
    have hlen : pre.length + 4 = (pre ++ u32le h.name).length := by
      simp [u32le]
    rw [heq, hlen]
    exact readU32_pre _ _ _
  have h3 : readU32 (pre ++ (serializeDefHeader h ++ rest))
      (pre.length + 8) = some (h.size % 4294967296) := by
    have heq : pre ++ (serializeDefHeader h ++ rest) =
        (pre ++ u32le h.name ++ u32le h.parent) ++ (u32le h.size ++
          (u32le h.offset ++ (u32le h.kind ++ rest))) := by
      simp [serializeDefHeader, List.append_assoc]
    have hlen : pre.length + 8 =
        (pre ++ u32le h.name ++ u32le h.parent).length := by
      simp [u32le]
    rw [heq, hlen]
    exact readU32_pre _ _ _
  have h4 : readU32 (pre ++ (serializeDefHeader h ++ rest))
      (pre.length + 12) = some (h.offset % 4294967296) := by
    have heq : pre ++ (serializeDefHeader h ++ rest) =
        (pre ++ u32le h.name ++ u32le h.parent ++ u32le h.size) ++
          (u32le h.offset ++ (u32le h.kind ++ rest)) := by
      simp [serializeDefHeader, List.append_assoc]
    have hlen : pre.length + 12 =
        (pre ++ u32le h.name ++ u32le h.parent ++ u32le h.size).length
        := by
      simp [u32le]
    rw [heq, hlen]
    exact readU32_pre _ _ _
  have h5 : readU32 (pre ++ (serializeDefHeader h ++ rest))
      (pre.length + 16) = some (h.kind % 4294967296) := by
    have heq : pre ++ (serializeDefHeader h ++ rest) =
        (pre ++ u32le h.name ++ u32le h.parent ++ u32le h.size ++
          u32le h.offset) ++ (u32le h.kind ++ rest) := by
      simp [serializeDefHeader, List.append_assoc]
    have hlen : pre.length + 16 =
        (pre ++ u32le h.name ++ u32le h.parent ++ u32le h.size ++
          u32le h.offset).length := by
      simp [u32le]
    rw [heq, hlen]
    exact readU32_pre _ _ _
  simp [parseDefHeader, h1, h2, h3, h4, h5, canonDefHeader]

theorem parseHeader_writer (h : Header) (rest : List Nat)
    (hm : h.magic.length = 4) :
    parseHeader (serializeHeader h ++ rest) = some (canonHeader h) := by
  have hM : readBytes (serializeHeader h ++ rest) 0 4 = some (h.magic.map (· % 256)) := by
    have heq : serializeHeader h ++ rest =
        ([] : List Nat) ++ ((h.magic.map (· % 256)) ++ ((u32le h.version) ++ ((u32le h.flags) ++ ((u64le h.timestamp) ++ ((u32le h.build) ++ ((u32le h.crc) ++ ((u32le h.segments) ++ ((serializeTableHeader h.string_data) ++ ((serializeTableHeader h.cnames) ++ ((serializeTableHeader h.tweakdb_ids) ++ ((serializeTableHeader h.resources) ++ ((serializeTableHeader h.definitions) ++ ((serializeTableHeader h.strings) ++ (rest)))))))))))))) := by
      simp [serializeHeader, List.append_assoc]
    have hlen : (4 : Nat) = (h.magic.map (· % 256)).length := by
      simp [hm]
    rw [heq, hlen]
    have := readBytes_pre ([] : List Nat) (h.magic.map (· % 256)) ((u32le h.version) ++ ((u32le h.flags) ++ ((u64le h.timestamp) ++ ((u32le h.build) ++ ((u32le h.crc) ++ ((u32le h.segments) ++ ((serializeTableHeader h.string_data) ++ ((serializeTableHeader h.cnames) ++ ((serializeTableHeader h.tweakdb_ids) ++ ((serializeTableHeader h.resources) ++ ((serializeTableHeader h.definitions) ++ ((serializeTableHeader h.strings) ++ (rest)))))))))))))
    simpa using this
  have hV : readU32 (serializeHeader h ++ rest) 4 = some (h.version % 4294967296) := by
    have heq : serializeHeader h ++ rest =
        ((h.magic.map (· % 256))) ++ ((u32le h.version) ++ ((u32le h.flags) ++ ((u64le h.timestamp) ++ ((u32le h.build) ++ ((u32le h.crc) ++ ((u32le h.segments) ++ ((serializeTableHeader h.string_data) ++ ((serializeTableHeader h.cnames) ++ ((serializeTableHeader h.tweakdb_ids) ++ ((serializeTableHeader h.resources) ++ ((serializeTableHeader h.definitions) ++ ((serializeTableHeader h.strings) ++ (rest))))))))))))) := by
      simp [serializeHeader, List.append_assoc]
    have hlen : (4 : Nat) = (((h.magic.map (· % 256)))).length := by
      simp [u32le, u64le, serializeTableHeader, hm]
    rw [heq, hlen]
    exact readU32_pre _ _ _
  have hF : readU32 (serializeHeader h ++ rest) 8 = some (h.flags % 4294967296) := by
    have heq : serializeHeader h ++ rest =
        ((h.magic.map (· % 256)) ++ (u32le h.version)) ++ ((u32le h.flags) ++ ((u64le h.timestamp) ++ ((u32le h.build) ++ ((u32le h.crc) ++ ((u32le h.segments) ++ ((serializeTableHeader h.string_data) ++ ((serializeTableHeader h.cnames) ++ ((serializeTableHeader h.tweakdb_ids) ++ ((serializeTableHeader h.resources) ++ ((serializeTableHeader h.definitions) ++ ((serializeTableHeader h.strings) ++ (rest)))))))))))) := by
      simp [serializeHeader, List.append_assoc]
    have hlen : (8 : Nat) = (((h.magic.map (· % 256)) ++ (u32le h.version))).length := by
      simp [u32le, u64le, serializeTableHeader, hm]
    rw [heq, hlen]
    exact readU32_pre _ _ _
  have hTS : readU64 (serializeHeader h ++ rest) 12 = some (h.timestamp % 18446744073709551616) := by
    have heq : serializeHeader h ++ rest =
        ((h.magic.map (· % 256)) ++ (u32le h.version) ++ (u32le h.flags)) ++ ((u64le h.timestamp) ++ ((u32le h.build) ++ ((u32le h.crc) ++ ((u32le h.segments) ++ ((serializeTableHeader h.string_data) ++ ((serializeTableHeader h.cnames) ++ ((serializeTableHeader h.tweakdb_ids) ++ ((serializeTableHeader h.resources) ++ ((serializeTableHeader h.definitions) ++ ((serializeTableHeader h.strings) ++ (rest))))))))))) := by
      simp [serializeHeader, List.append_assoc]
    have hlen : (12 : Nat) = (((h.magic.map (· % 256)) ++ (u32le h.version) ++ (u32le h.flags))).length := by
      simp [u32le, u64le, serializeTableHeader, hm]
    rw [heq, hlen]
    exact readU64_pre _ _ _
  have hB : readU32 (serializeHeader h ++ rest) 20 = some (h.build % 4294967296) := by
    have heq : serializeHeader h ++ rest =
        ((h.magic.map (· % 256)) ++ (u32le h.version) ++ (u32le h.flags) ++ (u64le h.timestamp)) ++ ((u32le h.build) ++ ((u32le h.crc) ++ ((u32le h.segments) ++ ((serializeTableHeader h.string_data) ++ ((serializeTableHeader h.cnames) ++ ((serializeTableHeader h.tweakdb_ids) ++ ((serializeTableHeader h.resources) ++ ((serializeTableHeader h.definitions) ++ ((serializeTableHeader h.strings) ++ (rest)))))))))) := by
      simp [serializeHeader, List.append_assoc]
    have hlen : (20 : Nat) = (((h.magic.map (· % 256)) ++ (u32le h.version) ++ (u32le h.flags) ++ (u64le h.timestamp))).length := by
      simp [u32le, u64le, serializeTableHeader, hm]
    rw [heq, hlen]
    exact readU32_pre _ _ _
  have hC : readU32 (serializeHeader h ++ rest) 24 = some (h.crc % 4294967296) := by
    have heq : serializeHeader h ++ rest =
        ((h.magic.map (· % 256)) ++ (u32le h.version) ++ (u32le h.flags) ++ (u64le h.timestamp) ++ (u32le h.build)) ++ ((u32le h.crc) ++ ((u32le h.segments) ++ ((serializeTableHeader h.string_data) ++ ((serializeTableHeader h.cnames) ++ ((serializeTableHeader h.tweakdb_ids) ++ ((serializeTableHeader h.resources) ++ ((serializeTableHeader h.definitions) ++ ((serializeTableHeader h.strings) ++ (rest))))))))) := by
      simp [serializeHeader, List.append_assoc]
    have hlen : (24 : Nat) = (((h.magic.map (· % 256)) ++ (u32le h.version) ++ (u32le h.flags) ++ (u64le h.timestamp) ++ (u32le h.build))).length := by
      simp [u32le, u64le, serializeTableHeader, hm]
    rw [heq, hlen]
    exact readU32_pre _ _ _
  have hS : readU32 (serializeHeader h ++ rest) 28 = some (h.segments % 4294967296) := by
    have heq : serializeHeader h ++ rest =
        ((h.magic.map (· % 256)) ++ (u32le h.version) ++ (u32le h.flags) ++ (u64le h.timestamp) ++ (u32le h.build) ++ (u32le h.crc)) ++ ((u32le h.segments) ++ ((serializeTableHeader h.string_data) ++ ((serializeTableHeader h.cnames) ++ ((serializeTableHeader h.tweakdb_ids) ++ ((serializeTableHeader h.resources) ++ ((serializeTableHeader h.definitions) ++ ((serializeTableHeader h.strings) ++ (rest)))))))) := by
      simp [serializeHeader, List.append_assoc]
    have hlen : (28 : Nat) = (((h.magic.map (· % 256)) ++ (u32le h.version) ++ (u32le h.flags) ++ (u64le h.timestamp) ++ (u32le h.build) ++ (u32le h.crc))).length := by
      simp [u32le, u64le, serializeTableHeader, hm]
    rw [heq, hlen]
    exact readU32_pre _ _ _
  have hT1 : parseTableHeader (serializeHeader h ++ rest) 32 = some (canonTable h.string_data) := by
    have heq : serializeHeader h ++ rest =
        ((h.magic.map (· % 256)) ++ (u32le h.version) ++ (u32le h.flags) ++ (u64le h.timestamp) ++ (u32le h.build) ++ (u32le h.crc) ++ (u32le h.segments)) ++ ((serializeTableHeader h.string_data) ++ ((serializeTableHeader h.cnames) ++ ((serializeTableHeader h.tweakdb_ids) ++ ((serializeTableHeader h.resources) ++ ((serializeTableHeader h.definitions) ++ ((serializeTableHeader h.strings) ++ (rest))))))) := by
      simp [serializeHeader, List.append_assoc]
    have hlen : (32 : Nat) = (((h.magic.map (· % 256)) ++ (u32le h.version) ++ (u32le h.flags) ++ (u64le h.timestamp) ++ (u32le h.build) ++ (u32le h.crc) ++ (u32le h.segments))).length := by
      simp [u32le, u64le, serializeTableHeader, hm]
    rw [heq, hlen]
    exact parseTableHeader_pre _ _ _
  have hT2 : parseTableHeader (serializeHeader h ++ rest) 44 = some (canonTable h.cnames) := by
    have heq : serializeHeader h ++ rest =
        ((h.magic.map (· % 256)) ++ (u32le h.version) ++ (u32le h.flags) ++ (u64le h.timestamp) ++ (u32le h.build) ++ (u32le h.crc) ++ (u32le h.segments) ++ (serializeTableHeader h.string_data)) ++ ((serializeTableHeader h.cnames) ++ ((serializeTableHeader h.tweakdb_ids) ++ ((serializeTableHeader h.resources) ++ ((serializeTableHeader h.definitions) ++ ((serializeTableHeader h.strings) ++ (rest)))))) := by
      simp [serializeHeader, List.append_assoc]
    have hlen : (44 : Nat) = (((h.magic.map (· % 256)) ++ (u32le h.version) ++ (u32le h.flags) ++ (u64le h.timestamp) ++ (u32le h.build) ++ (u32le h.crc) ++ (u32le h.segments) ++ (serializeTableHeader h.string_data))).length := by
      simp [u32le, u64le, serializeTableHeader, hm]
    rw [heq, hlen]
    exact parseTableHeader_pre _ _ _
  have hT3 : parseTableHeader (serializeHeader h ++ rest) 56 = some (canonTable h.tweakdb_ids) := by
    have heq : serializeHeader h ++ rest =
        ((h.magic.map (· % 256)) ++ (u32le h.version) ++ (u32le h.flags) ++ (u64le h.timestamp) ++ (u32le h.build) ++ (u32le h.crc) ++ (u32le h.segments) ++ (serializeTableHeader h.string_data) ++ (serializeTableHeader h.cnames)) ++ ((serializeTableHeader h.tweakdb_ids) ++ ((serializeTableHeader h.resources) ++ ((serializeTableHeader h.definitions) ++ ((serializeTableHeader h.strings) ++ (rest))))) := by
      simp [serializeHeader, List.append_assoc]
    have hlen : (56 : Nat) = (((h.magic.map (· % 256)) ++ (u32le h.version) ++ (u32le h.flags) ++ (u64le h.timestamp) ++ (u32le h.build) ++ (u32le h.crc) ++ (u32le h.segments) ++ (serializeTableHeader h.string_data) ++ (serializeTableHeader h.cnames))).length := by
      simp [u32le, u64le, serializeTableHeader, hm]
    rw [heq, hlen]
    exact parseTableHeader_pre _ _ _
  have hT4 : parseTableHeader (serializeHeader h ++ rest) 68 = some (canonTable h.resources) := by
    have heq : serializeHeader h ++ rest =
        ((h.magic.map (· % 256)) ++ (u32le h.version) ++ (u32le h.flags) ++ (u64le h.timestamp) ++ (u32le h.build) ++ (u32le h.crc) ++ (u32le h.segments) ++ (serializeTableHeader h.string_data) ++ (serializeTableHeader h.cnames) ++ (serializeTableHeader h.tweakdb_ids)) ++ ((serializeTableHeader h.resources) ++ ((serializeTableHeader h.definitions) ++ ((serializeTableHeader h.strings) ++ (rest)))) := by
      simp [serializeHeader, List.append_assoc]
    have hlen : (68 : Nat) = (((h.magic.map (· % 256)) ++ (u32le h.version) ++ (u32le h.flags) ++ (u64le h.timestamp) ++ (u32le h.build) ++ (u32le h.crc) ++ (u32le h.segments) ++ (serializeTableHeader h.string_data) ++ (serializeTableHeader h.cnames) ++ (serializeTableHeader h.tweakdb_ids))).length := by
      simp [u32le, u64le, serializeTableHeader, hm]
    rw [heq, hlen]
    exact parseTableHeader_pre _ _ _
  have hT5 : parseTableHeader (serializeHeader h ++ rest) 80 = some (canonTable h.definitions) := by
    have heq : serializeHeader h ++ rest =
        ((h.magic.map (· % 256)) ++ (u32le h.version) ++ (u32le h.flags) ++ (u64le h.timestamp) ++ (u32le h.build) ++ (u32le h.crc) ++ (u32le h.segments) ++ (serializeTableHeader h.string_data) ++ (serializeTableHeader h.cnames) ++ (serializeTableHeader h.tweakdb_ids) ++ (serializeTableHeader h.resources)) ++ ((serializeTableHeader h.definitions) ++ ((serializeTableHeader h.strings) ++ (rest))) := by
      simp [serializeHeader, List.append_assoc]
    have hlen : (80 : Nat) = (((h.magic.map (· % 256)) ++ (u32le h.version) ++ (u32le h.flags) ++ (u64le h.timestamp) ++ (u32le h.build) ++ (u32le h.crc) ++ (u32le h.segments) ++ (serializeTableHeader h.string_data) ++ (serializeTableHeader h.cnames) ++ (serializeTableHeader h.tweakdb_ids) ++ (serializeTableHeader h.resources))).length := by
      simp [u32le, u64le, serializeTableHeader, hm]
    rw [heq, hlen]
    exact parseTableHeader_pre _ _ _
  have hT6 : parseTableHeader (serializeHeader h ++ rest) 92 = some (canonTable h.strings) := by
    have heq : serializeHeader h ++ rest =
        ((h.magic.map (· % 256)) ++ (u32le h.version) ++ (u32le h.flags) ++ (u64le h.timestamp) ++ (u32le h.build) ++ (u32le h.crc) ++ (u32le h.segments) ++ (serializeTableHeader h.string_data) ++ (serializeTableHeader h.cnames) ++ (serializeTableHeader h.tweakdb_ids) ++ (serializeTableHeader h.resources) ++ (serializeTableHeader h.definitions)) ++ ((serializeTableHeader h.strings) ++ (rest)) := by
      simp [serializeHeader, List.append_assoc]
    have hlen : (92 : Nat) = (((h.magic.map (· % 256)) ++ (u32le h.version) ++ (u32le h.flags) ++ (u64le h.timestamp) ++ (u32le h.build) ++ (u32le h.crc) ++ (u32le h.segments) ++ (serializeTableHeader h.string_data) ++ (serializeTableHeader h.cnames) ++ (serializeTableHeader h.tweakdb_ids) ++ (serializeTableHeader h.resources) ++ (serializeTableHeader h.definitions))).length := by
      simp [u32le, u64le, serializeTableHeader, hm]
    rw [heq, hlen]
    exact parseTableHeader_pre _ _ _
  have hmm : (h.magic.map (· % 256)).map (· % 256) =
      h.magic.map (· % 256) := by
    rw [List.map_map]
    apply List.map_congr_left
    intro x _
    simp [Nat.mod_mod_of_dvd]
  simp [parseHeader, hM, hV, hF, hTS, hB, hC, hS, hT1, hT2, hT3,
    hT4, hT5, hT6, canonHeader, hmm]

/-! ## Table read-back lemmas -/

theorem flatten_fixed_get {α : Type} (g : α → List Nat) (k : Nat)
    (hk : ∀ x, (g x).length = k) (l : List α) (i : Nat)
    (hi : i < l.length) :
    ∃ pre rest, (l.map g).flatten = pre ++ (g (l.get ⟨i, hi⟩) ++ rest) ∧
      pre.length = k * i := by
  induction l generalizing i with
  | nil => exact absurd hi (by simp)
  | cons a t ih =>
    cases i with
    | zero => exact ⟨[], (t.map g).flatten, by simp, by simp⟩
    | succ j =>
      have hj : j < t.length := by simpa using hi
      obtain ⟨pre, rest, h1, h2⟩ := ih j hj
      refine ⟨g a ++ pre, rest, ?_, ?_⟩
      · simp only [List.map_cons, List.flatten_cons, h1,
          List.append_assoc, List.get_cons_succ]
      · rw [List.length_append, hk a, h2, Nat.mul_succ]
        omega

theorem optList_range' {α : Type} (f : Nat → Option α) (l : List α) :
    ∀ (s : Nat),
    (∀ i (hi : i < l.length), f (s + i) = some (l.get ⟨i, hi⟩)) →
    optList ((List.range' s l.length).map f) = some l := by
  induction l with
  | nil => intro s _; rfl
  | cons a t ih =>
    intro s h
    have hs : f s = some a := by
      have := h 0 (by simp)
      simpa using this
    have hrec : optList ((List.range' (s + 1) t.length).map f) =
        some t := by
      apply ih (s + 1)
      intro i hi
      have := h (i + 1) (by simpa using Nat.succ_lt_succ hi)
      have harg : s + (i + 1) = s + 1 + i := by omega
      rw [harg] at this
      simpa using this
    show optList ((List.range' s (t.length + 1)).map f) = some (a :: t)
    rw [List.range'_succ, List.map_cons, hs]
    show (optList ((List.range' (s + 1) t.length).map f)).map (a :: ·) =
      some (a :: t)
    rw [hrec]
    rfl

theorem range_drop_one (n : Nat) :
    (List.range n).drop 1 = List.range' 1 (n - 1) := by
  cases n with
  | zero => rfl
  | succ m =>
    rw [List.range_eq_range']
    rw [List.range'_succ]
    simp

theorem readStrTable_back (L A B : List Nat) (sd : StringData)
    (pool : List Str) (tbl : TableHeader)
    (hoff : tbl.offset = A.length) (hcnt : tbl.count = pool.length)
    (hL : L = A ++ (poolTableBytes sd pool ++ B))
    (hread : ∀ s, s ∈ pool →
      readCStr L (104 + (sd.lookup s).getD 0) = some s)
    (hbound : ∀ s, s ∈ pool → (sd.lookup s).getD 0 < 4294967296) :
    readStrTable L 104 tbl = some pool := by
  unfold readStrTable
  rw [hoff, hcnt]
  show optList ((List.range pool.length).map
    (fun i => readStringItem L 104 A.length i)) = some pool
  rw [List.range_eq_range']
  apply optList_range'
  intro i hi
  rw [Nat.zero_add]
  obtain ⟨pre, rest, hflat, hlen⟩ := flatten_fixed_get
    (fun s => u32le ((sd.lookup s).getD 0)) 4 (fun x => rfl) pool i hi
  have hLdecomp : L = (A ++ pre) ++
      (u32le ((sd.lookup (pool.get ⟨i, hi⟩)).getD 0) ++ (rest ++ B)) := by
    rw [hL,
      show poolTableBytes sd pool = (pool.map
        (fun s => u32le ((sd.lookup s).getD 0))).flatten from rfl,
      hflat]
    simp [List.append_assoc]
  have hpos : A.length + 4 * i = (A ++ pre).length := by
    simp [List.length_append, hlen]
  have h32 : readU32 L (A.length + 4 * i) =
      some ((sd.lookup (pool.get ⟨i, hi⟩)).getD 0 % 4294967296) := by
    rw [hLdecomp, hpos]
    exact readU32_pre _ _ _
  have hmem : pool.get ⟨i, hi⟩ ∈ pool := List.get_mem _ _ hi
  simp only [readStringItem, bind, Option.bind_eq_bind, h32,
    Option.some_bind, Nat.mod_eq_of_lt (hbound _ hmem)]
  exact hread _ hmem

/-! ## Pool collection lemmas -/

theorem foldl_poolInsert_mem (l : List Str) (acc : List Str) (x : Str) :
    x ∈ l.foldl poolInsert acc ↔ x ∈ acc ∨ x ∈ l := by
  induction l generalizing acc with
  | nil => simp
  | cons s r ih =>
    show x ∈ r.foldl poolInsert (poolInsert acc s) ↔ _
    rw [ih]
    unfold poolInsert
    by_cases hs : s ∈ acc
    · rw [if_pos hs]
      constructor
      · rintro (h | h)
        · exact Or.inl h
        · exact Or.inr (by simp [h])
      · rintro (h | h)
        · exact Or.inl h
        · rcases List.mem_cons.mp h with rfl | h
          · exact Or.inl hs
          · exact Or.inr h
    · rw [if_neg hs]
      simp [List.mem_append, List.mem_cons]
      tauto

theorem foldl_poolInsert_nodup (l : List Str) (acc : List Str)
    (hacc : acc.Nodup) : (l.foldl poolInsert acc).Nodup := by
  induction l generalizing acc with
  | nil => exact hacc
  | cons s r ih =>
    show (r.foldl poolInsert (poolInsert acc s)).Nodup
    apply ih
    unfold poolInsert
    by_cases hs : s ∈ acc
    · rwa [if_pos hs]
    · rw [if_neg hs]
      simp [List.nodup_append, hacc, hs]

theorem poolOfList_nodup (l : List Str) : (poolOfList l).Nodup :=
  foldl_poolInsert_nodup l [] List.nodup_nil

theorem poolOfList_mem {l : List Str} {x : Str} :
    x ∈ poolOfList l ↔ x ∈ l := by
  rw [poolOfList, foldl_poolInsert_mem]
  simp

theorem foldl_poolInsert_self (l : List Str) (acc : List Str)
    (hnd : l.Nodup) (hdisj : ∀ x ∈ l, x ∉ acc) :
    l.foldl poolInsert acc = acc ++ l := by
  induction l generalizing acc with
  | nil => simp
  | cons s r ih =>
    show r.foldl poolInsert (poolInsert acc s) = _
    have hs : s ∉ acc := hdisj s (by simp)
    have hdisj2 : ∀ x ∈ r, x ∉ acc ++ [s] := by
      intro x hx
      simp only [List.mem_append, List.mem_singleton]
      rintro (h | rfl)
      · exact hdisj x (by simp [hx]) h
      · exact (List.nodup_cons.mp hnd).1 hx
    rw [show poolInsert acc s = acc ++ [s] by simp [poolInsert, hs]]
    rw [ih (acc ++ [s]) (List.nodup_cons.mp hnd).2 hdisj2]
    simp

theorem poolOfList_self {l : List Str} (hnd : l.Nodup) :
    poolOfList l = l := by
  rw [poolOfList, foldl_poolInsert_self l [] hnd (by simp)]
  simp

/-! ## Read-side shape lemmas -/

theorem optList_mem {α : Type} {xs : List (Option α)} {l : List α}
    (h : optList xs = some l) : ∀ x ∈ l, some x ∈ xs := by
  induction xs generalizing l with
  | nil =>
    cases h
    intro x hx
    cases hx
  | cons o rest ih =>
    cases o with
    | none => cases h
    | some a =>
      simp only [optList] at h
      obtain ⟨l', hl', rfl⟩ := Option.map_eq_some'.mp h
      intro x hx
      rcases List.mem_cons.mp hx with rfl | hx
      · exact List.mem_cons_self _ _
      · exact List.mem_cons_of_mem _ (ih hl' x hx)

theorem readCStr_noNul {l : List Nat} {pos : Nat} {s : List Nat}
    (h : readCStr l pos = some s) : noNulStr s := by
  dsimp only [readCStr] at h
  split at h
  · injection h with h
    subst h
    intro b hb
    have := List.mem_takeWhile_imp hb
    simpa using this
  · cases h

theorem readStrTable_noNul {bytes : List Nat} {off : Nat}
    {tbl : TableHeader} {l : List Str}
    (h : readStrTable bytes off tbl = some l) :
    ∀ s ∈ l, noNulStr s := by
  intro s hs
  have hmem := optList_mem h s hs
  obtain ⟨i, _, hitem⟩ := List.mem_map.mp hmem
  simp only [readStringItem, bind, Option.bind_eq_bind,
    Option.bind_eq_some] at hitem
  obtain ⟨o, _, hcstr⟩ := hitem
  exact readCStr_noNul hcstr

theorem readU32_bound_of_parseDefHeader {bytes : List Nat} {pos : Nat}
    {h : DefHeader} (hp : parseDefHeader bytes pos = some h) :
    h.name < 4294967296 ∧ h.parent < 4294967296 := by
  simp only [parseDefHeader, bind, Option.bind_eq_bind,
    Option.bind_eq_some, Option.pure_def, Option.some.injEq] at hp
  obtain ⟨n, hn, p, hq, _, _, _, _, _, _, hres⟩ := hp
  cases hres
  exact ⟨readU32_lt hn, readU32_lt hq⟩

theorem readDefsTable_shape {bytes : List Nat} {tbl : TableHeader}
    {ds : List Defn} (h : readDefsTable bytes tbl = some ds) :
    ∀ d ∈ ds, ∃ k n p pl, d = Defn.record k n p pl ∧
      n < 4294967296 ∧ p < 4294967296 := by
  intro d hd
  have hmem := optList_mem h d hd
  obtain ⟨i, _, hitem⟩ := List.mem_map.mp hmem
  simp only [readDefItem, bind, Option.bind_eq_bind,
    Option.bind_eq_some] at hitem
  obtain ⟨hdr, hhdr, hdec⟩ := hitem
  obtain ⟨hn, hp⟩ := readU32_bound_of_parseDefHeader hhdr
  simp only [decodeDefn, bind, Option.bind_eq_bind, Option.bind_eq_some,
    Option.pure_def, Option.some.injEq] at hdec
  obtain ⟨k, _, pl, _, hres⟩ := hdec
  exact ⟨k, hdr.name, hdr.parent, pl, hres.symm, hn, hp⟩

/-! ## Payload layout lemmas -/

theorem writePayloads_get (ds : List Defn) (pos i : Nat)
    (hi : i < ds.length) :
    ∃ p q, (writePayloads ds pos).1 =
        p ++ ((ds.get ⟨i, hi⟩).payloadOf ++ q) ∧
      (writePayloads ds pos).2.get? i =
        some (defHeaderFor (ds.get ⟨i, hi⟩)
          ((ds.get ⟨i, hi⟩).payloadOf.length) (pos + p.length)) := by
  induction ds generalizing pos i with
  | nil => exact absurd hi (by simp)
  | cons d rest ih =>
    cases i with
    | zero =>
      refine ⟨[], (writePayloads rest (pos + d.payloadOf.length)).1,
        ?_, ?_⟩
      · show (writePayloads (d :: rest) pos).1 = _
        simp [writePayloads]
      · show (writePayloads (d :: rest) pos).2.get? 0 = _
        simp [writePayloads]
    | succ j =>
      have hj : j < rest.length := by simpa using hi
      obtain ⟨p, q, h1, h2⟩ := ih (pos + d.payloadOf.length) j hj
      refine ⟨d.payloadOf ++ p, q, ?_, ?_⟩
      · show (writePayloads (d :: rest) pos).1 = _
        simp only [writePayloads, List.get_cons_succ]
        rw [h1]
        simp [List.append_assoc]
      · show (writePayloads (d :: rest) pos).2.get? (j + 1) = _
        simp only [writePayloads, List.get?_cons_succ, List.get_cons_succ]
        rw [h2]
        have harith : pos + d.payloadOf.length + p.length =
            pos + (d.payloadOf ++ p).length := by
          simp [List.length_append]
          omega
        rw [harith]

theorem writePayloads_fst_length (ds : List Defn) (pos : Nat) :
    (writePayloads ds pos).1.length =
      (ds.map (fun d => d.payloadOf.length)).sum := by
  induction ds generalizing pos with
  | nil => rfl
  | cons d rest ih =>
    show (d.payloadOf ++ (writePayloads rest _).1).length = _
    simp [List.length_append, ih]

theorem kindNat_lt (d : Defn) : d.kindNat < 10 := by
  cases d with
  | undefined => simp [Defn.kindNat]
  | record k n p pl =>
    cases k <;> simp [Defn.kindNat, DefKind.toNat]

theorem defKindOfNat_toNat (k : DefKind) :
    defKindOfNat k.toNat = some k := by
  cases k <;> rfl

/-! ## Blob read-back for pool strings -/

theorem pool_read_back (b : ScriptBundle) (pool : List Str)
    (hsub : ∀ s ∈ pool,
      s ∈ b.cnames ++ b.tdb_ids ++ b.resources ++ b.strings)
    (hnul : ∀ s ∈ pool, noNulStr s)
    (hmeas : measureB b < 4294967296) :
    (∀ s ∈ pool, readCStr (tryWriteBytes b)
        (104 + ((stringDataOf b).lookup s).getD 0) = some s) ∧
    (∀ s ∈ pool, ((stringDataOf b).lookup s).getD 0 < 4294967296) := by
  have wf := stringDataOf_wf b
  have aux : ∀ s ∈ pool, readCStr (tryWriteBytes b)
      (104 + ((stringDataOf b).lookup s).getD 0) = some s ∧
      ((stringDataOf b).lookup s).getD 0 < 4294967296 := by
    intro s hs
    obtain ⟨off, hoff, hent⟩ := sd_lookup_mem ((wf.2.2.2 s).mpr
      (hsub s hs))
    obtain ⟨p, q, hblob0, hplen0⟩ := entriesWF_blob_split wf.1 hent
    have hblob : sdBlob (stringDataOf b) = p ++ (s ++ [0]) ++ q := hblob0
    have hplen : p.length = off := by simpa using hplen0
    have hofflen : off ≤ (blobOf b).length := by
      rw [show blobOf b = p ++ (s ++ [0]) ++ q from hblob]
      simp [List.length_append]
      omega
    have hsdlen : (stringDataOf b).length ≤ measureB b := by
      unfold measureB
      omega
    have hbound : off < 4294967296 := by
      have hb := blobOf_length b
      omega
    have hL : tryWriteBytes b =
        (serializeHeader (writtenHeader b) ++ p) ++
          (s ++ (0 :: (q ++ (cnBOf b ++ (tdbBOf b ++ (resBOf b ++
            (defHdrBOf b ++ (strBOf b ++ payBOf b)))))))) := by
      unfold tryWriteBytes
      rw [show blobOf b = p ++ (s ++ [0]) ++ q from hblob]
      simp [List.append_assoc]
    have hpos : 104 + off =
        (serializeHeader (writtenHeader b) ++ p).length := by
      simp [List.length_append, serH_len, hplen]
    rw [hoff]
    refine ⟨?_, hbound⟩
    show readCStr (tryWriteBytes b) (104 + off) = some s
    rw [hL, hpos]
    exact readCStr_pre _ _ _ (hnul s hs)
  exact ⟨fun s hs => (aux s hs).1, fun s hs => (aux s hs).2⟩

/-! ## Definition-table read-back -/

theorem readDefsTable_back (b : ScriptBundle) (tail : List Defn)
    (tbl : TableHeader)
    (hdefs : b.definitions = Defn.undefined :: tail)
    (hoff : tbl.offset = headersStartOf b)
    (hcnt : tbl.count = b.definitions.length)
    (hrec : ∀ d ∈ tail, ∃ k n p pl, d = Defn.record k n p pl ∧
      n < 4294967296 ∧ p < 4294967296)
    (hmeas : measureB b < 4294967296) :
    readDefsTable (tryWriteBytes b) tbl = some tail := by
  have hne : b.definitions ≠ [] := by rw [hdefs]; simp
  have htl : b.definitions.tail = tail := by rw [hdefs]; rfl
  have hlen1 : b.definitions.length = tail.length + 1 := by
    rw [hdefs]; simp
  unfold readDefsTable
  rw [hcnt, hoff, hlen1, range_drop_one]
  have hsub1 : tail.length + 1 - 1 = tail.length := by omega
  rw [hsub1]
  apply optList_range'
  intro j hj
  -- the payload split for entry j
  obtain ⟨p, q, hpay0, hhdr0⟩ := writePayloads_get tail (payStartOf b)
    j hj
  have hpayB : payBOf b = p ++ ((tail.get ⟨j, hj⟩).payloadOf ++ q) := by
    rw [payBOf, htl]; exact hpay0
  obtain ⟨k, n, par, pl, hdshape, hn, hp⟩ := hrec _ (List.get_mem tail j hj)
  have hplof : (tail.get ⟨j, hj⟩).payloadOf = pl := by rw [hdshape]; rfl
  -- the written header record for entry j
  have hhdrs_len : (tailHdrsOf b).length = tail.length := by
    rw [tailHdrsOf, htl]; exact writePayloads_snd_length _ _
  have hjh : j < (tailHdrsOf b).length := by omega
  have hget : (tailHdrsOf b).get ⟨j, hjh⟩ =
      ⟨n, par, pl.length, payStartOf b + p.length, k.toNat⟩ := by
    have h1 : (tailHdrsOf b).get? j =
        some ((tailHdrsOf b).get ⟨j, hjh⟩) := List.get?_eq_get hjh
    have h2 : (tailHdrsOf b).get? j =
        some (defHeaderFor (tail.get ⟨j, hj⟩)
          ((tail.get ⟨j, hj⟩).payloadOf.length)
          (payStartOf b + p.length)) := by
      rw [tailHdrsOf, htl]; exact hhdr0
    rw [h1] at h2
    injection h2 with h2
    rw [h2, hdshape]
    rfl
  -- length bookkeeping
  have hblob_len : (blobOf b).length = (stringDataOf b).length :=
    blobOf_length b
  have hcn_len : (cnBOf b).length = 4 * b.cnames.length :=
    poolTableBytes_length _ _
  have htdb_len : (tdbBOf b).length = 4 * b.tdb_ids.length :=
    poolTableBytes_length _ _
  have hres_len : (resBOf b).length = 4 * b.resources.length :=
    poolTableBytes_length _ _
  have hstr_len : (strBOf b).length = 4 * b.strings.length :=
    poolTableBytes_length _ _
  have hsum_defs : (b.definitions.map (fun d => d.payloadOf.length)).sum =
      (tail.map (fun d => d.payloadOf.length)).sum := by
    rw [hdefs]; simp [Defn.payloadOf]
  have hpayB_len : (payBOf b).length =
      (tail.map (fun d => d.payloadOf.length)).sum := by
    rw [payBOf, htl]; exact writePayloads_fst_length _ _
  have hplen_le : p.length + pl.length ≤ (payBOf b).length := by
    rw [hpayB, hplof]
    simp [List.length_append]
  have hmeasure_eq : measureB b = payStartOf b +
      (tail.map (fun d => d.payloadOf.length)).sum := by
    unfold measureB payStartOf strStartOf headersStartOf
    rw [hsum_defs] at *
    omega
  have hsize_lt : pl.length < 4294967296 := by omega
  have hoff_lt : payStartOf b + p.length < 4294967296 := by omega
  have hkind_lt : k.toNat < 4294967296 := by cases k <;> simp [DefKind.toNat]
  -- parse the header record back
  obtain ⟨pre2, rest2, hflat, hflatlen⟩ := flatten_fixed_get
    serializeDefHeader 20 (fun x => rfl) (tailHdrsOf b) j hjh
  have hLhdr : tryWriteBytes b =
      ((serializeHeader (writtenHeader b) ++ blobOf b ++ cnBOf b ++
        tdbBOf b ++ resBOf b ++ serializeDefHeader defaultDefHeader) ++
        pre2) ++
      (serializeDefHeader ((tailHdrsOf b).get ⟨j, hjh⟩) ++
        (rest2 ++ (strBOf b ++ payBOf b))) := by
    unfold tryWriteBytes
    rw [show defHdrBOf b = serializeDefHeader defaultDefHeader ++
      ((tailHdrsOf b).map serializeDefHeader).flatten from rfl, hflat]
    simp [List.append_assoc]
  have hposhdr : headersStartOf b + 20 * (1 + j) =
      ((serializeHeader (writtenHeader b) ++ blobOf b ++ cnBOf b ++
        tdbBOf b ++ resBOf b ++ serializeDefHeader defaultDefHeader) ++
        pre2).length := by
    have h20 : (serializeDefHeader defaultDefHeader).length = 20 := rfl
    simp only [List.length_append, serH_len, h20, hflatlen,
      headersStartOf]
    omega
  have hparse : parseDefHeader (tryWriteBytes b)
      (headersStartOf b + 20 * (1 + j)) =
      some (canonDefHeader ((tailHdrsOf b).get ⟨j, hjh⟩)) := by
    rw [hLhdr, hposhdr]
    exact parseDefHeader_pre _ _ _
  have hcanon : canonDefHeader ((tailHdrsOf b).get ⟨j, hjh⟩) =
      ⟨n, par, pl.length, payStartOf b + p.length, k.toNat⟩ := by
    rw [hget]
    simp [canonDefHeader, Nat.mod_eq_of_lt, hn, hp, hsize_lt, hoff_lt,
      hkind_lt]
  -- read the payload back
  have hLpay : tryWriteBytes b =
      ((serializeHeader (writtenHeader b) ++ blobOf b ++ cnBOf b ++
        tdbBOf b ++ resBOf b ++ defHdrBOf b ++ strBOf b) ++ p) ++
      (pl ++ q) := by
    unfold tryWriteBytes
    rw [hpayB, hplof]
    simp [List.append_assoc]
  have hpospay : payStartOf b + p.length =
      ((serializeHeader (writtenHeader b) ++ blobOf b ++ cnBOf b ++
        tdbBOf b ++ resBOf b ++ defHdrBOf b ++ strBOf b) ++ p).length
      := by
    simp only [List.length_append, serH_len, defHdrBOf_length b hne,
      payStartOf, strStartOf, headersStartOf]
  have hbytes : readBytes (tryWriteBytes b)
      (payStartOf b + p.length) pl.length = some pl := by
    rw [hLpay, hpospay]
    exact readBytes_pre _ _ _
  -- assemble the item read
  show readDefItem (tryWriteBytes b) (headersStartOf b) (1 + j) =
    some (tail.get ⟨j, hj⟩)
  simp only [readDefItem, bind, Option.bind_eq_bind, hparse,
    Option.some_bind, hcanon]
  simp only [decodeDefn, bind, Option.bind_eq_bind, defKindOfNat_toNat,
    Option.some_bind, hbytes, Option.pure_def, hdshape]

/-! ## C1: the read/write round trip -/

/-- Claim C1: for every bundle `B` obtained by successfully reading any
input (`ScriptBundle::from_bytes`), reading the bytes produced by writing
`B` (`into_writeable().to_bytes()`) succeeds and yields `B` itself — the
same string pools in the same order, the same definition sequence with
the Undefined sentinel at index 0, and hence each function's instruction
sequence unchanged (definition payload bytes are preserved verbatim). The
written size must fit the `u32` offsets of the container. -/
theorem read_write_roundtrip (input : List Nat) (b : ScriptBundle)
    (hread : fromBytes input = some b)
    (hmeas : measureB b < 4294967296) :
    fromBytes (tryWriteBytes b) = some b := by
  -- invert the read
  unfold fromBytes at hread
  split at hread
  case h_2 => exact absurd hread (by simp)
  case h_1 x h0 heq0 =>
  unfold fromReader at hread
  simp only [bind, Option.bind_eq_some, Option.pure_def,
    Option.some.injEq] at hread
  obtain ⟨cn0, hcn0, tdb0, htdb0, res0, hres0, str0, hstr0, defs0,
    hdefs0, hb⟩ := hread
  have hbc : b.cnames = poolOfList cn0 := by rw [← hb]
  have hbt : b.tdb_ids = poolOfList tdb0 := by rw [← hb]
  have hbr : b.resources = poolOfList res0 := by rw [← hb]
  have hbs : b.strings = poolOfList str0 := by rw [← hb]
  have hbd : b.definitions = Defn.undefined :: defs0 := by rw [← hb]
  -- read-produced invariants
  have hnd_cn : b.cnames.Nodup := by rw [hbc]; exact poolOfList_nodup _
  have hnd_tdb : b.tdb_ids.Nodup := by rw [hbt]; exact poolOfList_nodup _
  have hnd_res : b.resources.Nodup := by
    rw [hbr]; exact poolOfList_nodup _
  have hnd_str : b.strings.Nodup := by rw [hbs]; exact poolOfList_nodup _
  have hnul_cn : ∀ s ∈ b.cnames, noNulStr s := by
    rw [hbc]
    exact fun s hs => readStrTable_noNul hcn0 s (poolOfList_mem.mp hs)
  have hnul_tdb : ∀ s ∈ b.tdb_ids, noNulStr s := by
    rw [hbt]
    exact fun s hs => readStrTable_noNul htdb0 s (poolOfList_mem.mp hs)
  have hnul_res : ∀ s ∈ b.resources, noNulStr s := by
    rw [hbr]
    exact fun s hs => readStrTable_noNul hres0 s (poolOfList_mem.mp hs)
  have hnul_str : ∀ s ∈ b.strings, noNulStr s := by
    rw [hbs]
    exact fun s hs => readStrTable_noNul hstr0 s (poolOfList_mem.mp hs)
  have hshape := readDefsTable_shape hdefs0
  -- segment lengths
  have hblob_len : (blobOf b).length = (stringDataOf b).length :=
    blobOf_length b
  have hcn_len : (cnBOf b).length = 4 * b.cnames.length :=
    poolTableBytes_length _ _
  have htdb_len : (tdbBOf b).length = 4 * b.tdb_ids.length :=
    poolTableBytes_length _ _
  have hres_len : (resBOf b).length = 4 * b.resources.length :=
    poolTableBytes_length _ _
  have hstr_len : (strBOf b).length = 4 * b.strings.length :=
    poolTableBytes_length _ _
  have hmeasure_parts : measureB b = 104 + (stringDataOf b).length +
      b.cnames.length * 4 + b.tdb_ids.length * 4 +
      b.resources.length * 4 + b.definitions.length * 20 +
      b.strings.length * 4 +
      (b.definitions.map (fun d => d.payloadOf.length)).sum := rfl
  -- the header parses back
  have hout_eq : tryWriteBytes b = serializeHeader (writtenHeader b) ++
      (blobOf b ++ (cnBOf b ++ (tdbBOf b ++ (resBOf b ++ (defHdrBOf b ++
        (strBOf b ++ payBOf b)))))) := by
    unfold tryWriteBytes
    simp [List.append_assoc]
  have hparse : parseHeader (tryWriteBytes b) =
      some (canonHeader (writtenHeader b)) := by
    rw [hout_eq]
    exact parseHeader_writer _ _ rfl
  have hmagic : (canonHeader (writtenHeader b)).magic = magicREDS := rfl
  have hver : (canonHeader (writtenHeader b)).version = supportedVersion
    := rfl
  have hbrn : bundleReaderNew (tryWriteBytes b) =
      .ok (canonHeader (writtenHeader b)) := by
    unfold bundleReaderNew
    rw [hparse]
    simp [hmagic, hver]
  -- canonical table fields
  have hsdoff : (canonHeader (writtenHeader b)).string_data.offset = 104
    := by
    show 104 % 4294967296 = 104
    norm_num
  -- the four pools read back
  have hcn_back : readStrTable (tryWriteBytes b)
      (canonHeader (writtenHeader b)).string_data.offset
      (canonHeader (writtenHeader b)).cnames = some b.cnames := by
    rw [hsdoff]
    obtain ⟨hrd, hbd2⟩ := pool_read_back b b.cnames
      (fun s hs => by simp [List.mem_append, hs]) hnul_cn hmeas
    refine readStrTable_back _ (serializeHeader (writtenHeader b) ++
        blobOf b)
      (tdbBOf b ++ (resBOf b ++ (defHdrBOf b ++ (strBOf b ++ payBOf b))))
      (stringDataOf b) b.cnames _ ?_ ?_ ?_ hrd hbd2
    · show (104 + (blobOf b).length) % 4294967296 = _
      rw [Nat.mod_eq_of_lt (by omega)]
      simp only [List.length_append, serH_len]
    · show b.cnames.length % 4294967296 = b.cnames.length
      exact Nat.mod_eq_of_lt (by omega)
    · unfold tryWriteBytes
      simp [cnBOf, List.append_assoc]
  have htdb_back : readStrTable (tryWriteBytes b)
      (canonHeader (writtenHeader b)).string_data.offset
      (canonHeader (writtenHeader b)).tweakdb_ids = some b.tdb_ids := by
    rw [hsdoff]
    obtain ⟨hrd, hbd2⟩ := pool_read_back b b.tdb_ids
      (fun s hs => by simp [List.mem_append, hs]) hnul_tdb hmeas
    refine readStrTable_back _ (serializeHeader (writtenHeader b) ++
        blobOf b ++ cnBOf b)
      (resBOf b ++ (defHdrBOf b ++ (strBOf b ++ payBOf b)))
      (stringDataOf b) b.tdb_ids _ ?_ ?_ ?_ hrd hbd2
    · show (104 + (blobOf b).length + (cnBOf b).length) % 4294967296 = _
      rw [Nat.mod_eq_of_lt (by omega)]
      simp only [List.length_append, serH_len]
    · show b.tdb_ids.length % 4294967296 = b.tdb_ids.length
      exact Nat.mod_eq_of_lt (by omega)
    · unfold tryWriteBytes
      simp [tdbBOf, List.append_assoc]
  have hres_back : readStrTable (tryWriteBytes b)
      (canonHeader (writtenHeader b)).string_data.offset
      (canonHeader (writtenHeader b)).resources = some b.resources := by
    rw [hsdoff]
    obtain ⟨hrd, hbd2⟩ := pool_read_back b b.resources
      (fun s hs => by simp [List.mem_append, hs]) hnul_res hmeas
    refine readStrTable_back _ (serializeHeader (writtenHeader b) ++
        blobOf b ++ cnBOf b ++ tdbBOf b)
      (defHdrBOf b ++ (strBOf b ++ payBOf b))
      (stringDataOf b) b.resources _ ?_ ?_ ?_ hrd hbd2
    · show (104 + (blobOf b).length + (cnBOf b).length +
        (tdbBOf b).length) % 4294967296 = _
      rw [Nat.mod_eq_of_lt (by omega)]
      simp only [List.length_append, serH_len]
    · show b.resources.length % 4294967296 = b.resources.length
      exact Nat.mod_eq_of_lt (by omega)
    · unfold tryWriteBytes
      simp [resBOf, List.append_assoc]
  have hne : b.definitions ≠ [] := by rw [hbd]; simp
  have hdefB_len : (defHdrBOf b).length = 20 * b.definitions.length :=
    defHdrBOf_length b hne
  have hstr_back : readStrTable (tryWriteBytes b)
      (canonHeader (writtenHeader b)).string_data.offset
      (canonHeader (writtenHeader b)).strings = some b.strings := by
    rw [hsdoff]
    obtain ⟨hrd, hbd2⟩ := pool_read_back b b.strings
      (fun s hs => by simp [List.mem_append, hs]) hnul_str hmeas
    refine readStrTable_back _ (serializeHeader (writtenHeader b) ++
        blobOf b ++ cnBOf b ++ tdbBOf b ++ resBOf b ++ defHdrBOf b)
      (payBOf b) (stringDataOf b) b.strings _ ?_ ?_ ?_ hrd hbd2
    · show strStartOf b % 4294967296 = _
      have hss : strStartOf b = 104 + (stringDataOf b).length +
          4 * b.cnames.length + 4 * b.tdb_ids.length +
          4 * b.resources.length + 20 * b.definitions.length := by
        unfold strStartOf headersStartOf
        omega
      rw [Nat.mod_eq_of_lt (by omega)]
      simp only [List.length_append, serH_len, hdefB_len]
      unfold strStartOf headersStartOf
      omega
    · show b.strings.length % 4294967296 = b.strings.length
      exact Nat.mod_eq_of_lt (by omega)
    · unfold tryWriteBytes
      simp [strBOf, List.append_assoc]
  -- the definitions read back
  have hdefs_back : readDefsTable (tryWriteBytes b)
      (canonHeader (writtenHeader b)).definitions = some defs0 := by
    apply readDefsTable_back b defs0 _ hbd _ _ hshape hmeas
    · show headersStartOf b % 4294967296 = headersStartOf b
      apply Nat.mod_eq_of_lt
      unfold headersStartOf
      omega
    · show b.definitions.length % 4294967296 = b.definitions.length
      exact Nat.mod_eq_of_lt (by omega)
  -- assemble
  unfold fromBytes
  rw [hbrn]
  unfold fromReader
  simp only [bind, Option.bind_eq_bind, hcn_back, htdb_back, hres_back,
    hstr_back, hdefs_back, Option.some_bind, Option.pure_def,
    Option.some.injEq]
  have e1 : poolOfList b.cnames = b.cnames := poolOfList_self hnd_cn
  have e2 : poolOfList b.tdb_ids = b.tdb_ids := poolOfList_self hnd_tdb
  have e3 : poolOfList b.resources = b.resources :=
    poolOfList_self hnd_res
  have e4 : poolOfList b.strings = b.strings := poolOfList_self hnd_str
  rw [e1, e2, e3, e4, ← hbd]

/-- Witness for C1: the minimal valid input round-trips. -/
theorem read_write_roundtrip_witness :
    fromBytes minimalInput = some defaultBundle ∧
    measureB defaultBundle < 4294967296 ∧
    fromBytes (tryWriteBytes defaultBundle) = some defaultBundle :=
  ⟨by decide, by decide,
   read_write_roundtrip minimalInput defaultBundle (by decide)
     (by decide)⟩

end Redscript
